import Mathlib

/-!
# Whiteout core — shallow embedding and verification

A shallow embedding of the Whiteout anonymization core (TypeScript) into
Lean 4, together with theorems settling the specification claims about:

* the decoy mixer (`mixDecoys`),
* the alias generator (`generateAlias` and friends),
* the cross-document entity graph (`recordDocument`, `findMatches` over the
  in-memory reference store `MemoryEntityGraph`),
* the Touchstone classification client (`classifyBatch`),
* the tokenizer with IBAN checksum validation (`tokenize`).

JavaScript runtime facilities that are external to the repository
(cryptographic randomness, `Math.random`, the JSON parser, the network
transport) are modelled as explicit function parameters; JavaScript `Map`
and `Set` objects are modelled as insertion-ordered association lists.
-/

namespace Whiteout

/-! ## JavaScript `Map` / `Set` modelling -/

/-- `Map.get`: `none` models JS `undefined`. -/
def mapGet {α : Type} (m : List (String × α)) (k : String) : Option α :=
  (m.find? (fun p => p.1 == k)).map (·.2)

/-- `Map.has`. -/
def mapHas {α : Type} (m : List (String × α)) (k : String) : Bool :=
  (mapGet m k).isSome

/-- `Map.set`: overwrites the binding if the key is present, else appends
(JS maps preserve insertion order). -/
def mapSet {α : Type} (m : List (String × α)) (k : String) (v : α) :
    List (String × α) :=
  if mapHas m k then m.map (fun p => if p.1 == k then (k, v) else p)
  else m ++ [(k, v)]

/-- `new Set(xs)` as a deduplicated list in first-occurrence order. -/
def jsSetList (l : List String) : List String :=
  l.foldl (fun acc x => if acc.contains x then acc else acc ++ [x]) []

/-! ## Decoy mixer (`decoy-mixer.ts`)

`crypto.getRandomValues` is modelled by the explicit streams `decoySrc`
(one synthetic decoy per index, standing for `generateDecoy()`) and
`rand` (one 32-bit draw per array index, standing for the `buf` array of
the Fisher–Yates shuffle). -/

/-- Swap entries `i` and `j` of a list (the `[arr[i], arr[j]] = [arr[j], arr[i]]`
step of the shuffle). Out-of-range indices leave the list unchanged. -/
def listSwap {α : Type} (l : List α) (i j : Nat) : List α :=
  match l[i]?, l[j]? with
  | some a, some b => (l.set i b).set j a
  | _, _ => l

/-- `for (let i = arr.length - 1; i > 0; i--) { const j = buf[i] % (i + 1); swap }`,
unrolled top-down: `fisherYatesAux rand n l` performs the iterations
`i = n, n-1, …, 1`. -/
def fisherYatesAux {α : Type} (rand : Nat → Nat) : Nat → List α → List α
  | 0, l => l
  | i + 1, l => fisherYatesAux rand i (listSwap l (i + 1) (rand (i + 1) % (i + 2)))

/-- In-place Fisher–Yates shuffle of `decoy-mixer.ts`, with the random draws
`buf[i]` supplied by `rand`. -/
def fisherYates {α : Type} (l : List α) (rand : Nat → Nat) : List α :=
  fisherYatesAux rand (l.length - 1) l

/-- Result record of `mixDecoys`. -/
structure MixResult where
  mixed : List String
  realSet : List String
deriving Repr, DecidableEq

/-- `mixDecoys(realTerms, ratio, maxBatch)` (current version of
`decoy-mixer.ts`): the decoy count is
`min(ceil(realTerms.length * ratio), max(0, maxBatch - realTerms.length))`,
so real terms are never dropped; the mixed batch is the Fisher–Yates
shuffle of `realTerms ++ decoys`.  The JS `number` arithmetic on `ratio`
is modelled over `ℚ`. -/
def mixDecoys (realTerms : List String) (ratio : ℚ) (maxBatch : Nat)
    (decoySrc : Nat → String) (rand : Nat → Nat) : MixResult :=
  let realSet := jsSetList realTerms
  let availableForDecoys : Int := max 0 ((maxBatch : Int) - realTerms.length)
  let desiredDecoys : Int := Int.ceil ((realTerms.length : ℚ) * ratio)
  let decoyCount : Int := min desiredDecoys availableForDecoys
  let decoys := (List.range decoyCount.toNat).map decoySrc
  { mixed := fisherYates (realTerms ++ decoys) rand
    realSet := realSet }

/-! ### Shuffle lemmas -/

theorem listSwap_count {α : Type} [BEq α] [LawfulBEq α]
    (l : List α) (i j : Nat) (b : α) :
    (listSwap l i j).count b = l.count b := by
  unfold listSwap
  cases hi : l[i]? with
  | none => simp
  | some a =>
    cases hj : l[j]? with
    | none => simp
    | some c =>
      have hi' : i < l.length := by
        by_contra h
        simp [List.getElem?_eq_none (Nat.le_of_not_lt h)] at hi
      have hj' : j < l.length := by
        by_contra h
        simp [List.getElem?_eq_none (Nat.le_of_not_lt h)] at hj
      have hia : l[i] = a := by
        have := List.getElem?_eq_getElem hi'
        rw [hi] at this; exact (Option.some_inj.mp this.symm)
      have hjc : l[j] = c := by
        have := List.getElem?_eq_getElem hj'
        rw [hj] at this; exact (Option.some_inj.mp this.symm)
      have hj'' : j < (l.set i c).length := by
        rw [List.length_set]; exact hj'
      rw [List.count_set a b (l.set i c) j hj'', List.count_set c b l i hi']
      have hgj : (l.set i c)[j] = c := by
        by_cases hij : i = j
        · subst hij
          simp [List.getElem_set_self]
        · rw [List.getElem_set_ne hij]
          exact hjc
      rw [hgj, hia]
      have hmem_a : a ∈ l := hia ▸ List.getElem_mem hi'
      have hmem_c : c ∈ l := hjc ▸ List.getElem_mem hj'
      have hcount_a : a == b → 1 ≤ l.count b := fun h =>
        List.one_le_count_iff.mpr ((eq_of_beq h) ▸ hmem_a)
      have hcount_c : c == b → 1 ≤ l.count b := fun h =>
        List.one_le_count_iff.mpr ((eq_of_beq h) ▸ hmem_c)
      by_cases hab : a == b
      · have h1 := hcount_a hab
        by_cases hcb : c == b <;> simp [hab, hcb] <;> omega
      · by_cases hcb : c == b
        · have h2 := hcount_c hcb
          simp [hab, hcb]
        · simp [hab, hcb]

theorem listSwap_length {α : Type} (l : List α) (i j : Nat) :
    (listSwap l i j).length = l.length := by
  unfold listSwap
  cases hi : l[i]? <;> cases hj : l[j]? <;> simp

theorem fisherYatesAux_count {α : Type} [BEq α] [LawfulBEq α]
    (rand : Nat → Nat) (n : Nat) (l : List α) (b : α) :
    (fisherYatesAux rand n l).count b = l.count b := by
  induction n generalizing l with
  | zero => rfl
  | succ i ih =>
    unfold fisherYatesAux
    rw [ih, listSwap_count]

theorem fisherYatesAux_length {α : Type} (rand : Nat → Nat) (n : Nat) (l : List α) :
    (fisherYatesAux rand n l).length = l.length := by
  induction n generalizing l with
  | zero => rfl
  | succ i ih =>
    unfold fisherYatesAux
    rw [ih, listSwap_length]

theorem fisherYates_count {α : Type} [BEq α] [LawfulBEq α]
    (l : List α) (rand : Nat → Nat) (b : α) :
    (fisherYates l rand).count b = l.count b :=
  fisherYatesAux_count rand _ l b

theorem fisherYates_mem (l : List String) (rand : Nat → Nat) (b : String) :
    b ∈ fisherYates l rand ↔ b ∈ l := by
  rw [← List.one_le_count_iff, ← List.one_le_count_iff, fisherYates_count]

theorem fisherYates_length {α : Type} (l : List α) (rand : Nat → Nat) :
    (fisherYates l rand).length = l.length :=
  fisherYatesAux_length rand _ l

/-- C1: for every list `realTerms` with `realTerms.length ≤ maxBatch` and every
`ratio` (and every behaviour of the random decoy source and shuffle), every
element of `realTerms` appears in `mixDecoys(realTerms, ratio, maxBatch).mixed`
— real terms are never dropped to make room for decoys, only the decoy count
shrinks — and `mixed.length ≤ maxBatch`. -/
theorem mixDecoys_never_drops_real (realTerms : List String) (ratio : ℚ)
    (maxBatch : Nat) (decoySrc : Nat → String) (rand : Nat → Nat)
    (h : realTerms.length ≤ maxBatch) :
    (∀ t ∈ realTerms, t ∈ (mixDecoys realTerms ratio maxBatch decoySrc rand).mixed) ∧
    (mixDecoys realTerms ratio maxBatch decoySrc rand).mixed.length ≤ maxBatch := by
  constructor
  · intro t ht
    show t ∈ fisherYates
      (realTerms ++ (List.range (min (Int.ceil ((realTerms.length : ℚ) * ratio))
        (max 0 ((maxBatch : Int) - realTerms.length))).toNat).map decoySrc) rand
    rw [fisherYates_mem]
    exact List.mem_append_left _ ht
  · show (fisherYates
      (realTerms ++ (List.range (min (Int.ceil ((realTerms.length : ℚ) * ratio))
        (max 0 ((maxBatch : Int) - realTerms.length))).toNat).map decoySrc) rand).length ≤ maxBatch
    rw [fisherYates_length, List.length_append, List.length_map, List.length_range]
    omega

/-- Witness for C1 at a concrete input. -/
theorem mixDecoys_never_drops_real_witness :
    "Dupont" ∈ (mixDecoys ["Dupont", "Martin", "Paris"] (3 / 10) 100
      (fun _ => "Decoy") (fun _ => 0)).mixed ∧
    (mixDecoys ["Dupont", "Martin", "Paris"] (3 / 10) 100
      (fun _ => "Decoy") (fun _ => 0)).mixed.length ≤ 100 :=
  ⟨(mixDecoys_never_drops_real ["Dupont", "Martin", "Paris"] (3 / 10) 100
      (fun _ => "Decoy") (fun _ => 0) (by decide)).1 "Dupont" (by decide),
   (mixDecoys_never_drops_real ["Dupont", "Martin", "Paris"] (3 / 10) 100
      (fun _ => "Decoy") (fun _ => 0) (by decide)).2⟩

/-! ## Alias generator (`alias-generator.ts`)

`Math.random()` is modelled by an explicit draw stream `draws : Nat → Nat`
indexed by a consumption counter; each `pickRandom(arr)` /
`Math.floor(Math.random() * n)` consumes one draw and reduces it modulo the
required range.  The name pools `data/alias-firstnames.json`,
`data/alias-surnames.json` and `data/alias-companies.json` are data files of
the repository that are not under `src/`, so they appear as parameters of the
embedding; `String.prototype.normalize("NFD")` followed by stripping
combining marks (a JS builtin) is likewise an oracle parameter `nfd`. -/

/-- The closed `EntityType` union of `types.ts`. -/
inductive EntityType where
  | person | company | address | city | email | phone | iban | ssn | url | unknown
deriving Repr, DecidableEq

/-- The TS string literal of an `EntityType` (record keys of
`genericCounters` and `labels`). -/
def typeKey : EntityType → String
  | .person => "person"
  | .company => "company"
  | .address => "address"
  | .city => "city"
  | .email => "email"
  | .phone => "phone"
  | .iban => "iban"
  | .ssn => "ssn"
  | .url => "url"
  | .unknown => "unknown"

/-- A JS `number` as stored in `genericCounters`: a natural counter value or
`NaN` (the result of `++` on a missing key). -/
inductive JsCounter where
  | num (n : Nat)
  | nan
deriving Repr, DecidableEq

/-- The module-level initialiser of `genericCounters` — note that `iban`,
`ssn`, `url` and `unknown` have no entry. -/
def initialCounters : List (String × JsCounter) :=
  [("person", .num 0), ("company", .num 0), ("address", .num 0),
   ("city", .num 0), ("email", .num 0), ("phone", .num 0)]

/-- `resetAliasCounters()`: sets every key currently present in
`genericCounters` to 0. -/
def resetAliasCounters (cs : List (String × JsCounter)) : List (String × JsCounter) :=
  cs.map (fun p => (p.1, JsCounter.num 0))

/-- `++genericCounters[type]`: pre-increment on a possibly missing key.
`undefined + 1` and `NaN + 1` are both `NaN`. -/
def incrCounter : Option JsCounter → JsCounter
  | some (.num n) => .num (n + 1)
  | some .nan => .nan
  | none => .nan

/-- `(++genericCounters[type]) || 1`: the `||` falls back to `1` on the falsy
values `NaN` and `0`. -/
def counterValue : JsCounter → Nat
  | .num n => if n = 0 then 1 else n
  | .nan => 1

/-- The `labels` record of `generateGenericAlias` combined with the
`?? "Entité"` default (the record has no `url` key). -/
def genericLabel : EntityType → String
  | .person => "Personne"
  | .company => "Société"
  | .address => "Adresse"
  | .city => "Ville"
  | .email => "email"
  | .phone => "téléphone"
  | .iban => "IBAN"
  | .ssn => "NIR"
  | .unknown => "Entité"
  | .url => "Entité"

/-- `generateGenericAlias(type)`: increments the per-type counter and renders
the numbered placeholder. -/
def generateGenericAlias (t : EntityType) (cs : List (String × JsCounter)) :
    String × List (String × JsCounter) :=
  let c := incrCounter (mapGet cs (typeKey t))
  let cs' := mapSet cs (typeKey t) c
  let n := counterValue c
  let a :=
    if t = .email then "personne" ++ toString n ++ "@exemple.fr"
    else if t = .phone then "+33 X XX XX XX X" ++ toString n
    else if t = .iban then "FRXX XXXX XXXX XXXX XXXX XXX" ++ toString n
    else if t = .ssn then "X XX XX XX XXX XXX X" ++ toString n
    else genericLabel t ++ " " ++ toString n
  (a, cs')

/-- Static context of the realistic generator: the name pools (repository
data files not under `src/`) and the JS builtins `Math.random` (as `draws`)
and NFD-normalisation + diacritic stripping (as `nfd`). -/
structure AliasCtx where
  firstnamesM : List String
  firstnamesF : List String
  firstnamesNeutral : List String
  surnames : List String
  companiesStandalone : List String
  companiesPrefixes : List String
  companiesSuffixes : List String
  draws : Nat → Nat
  nfd : String → String

/-- Mutable alias-generation state: the session alias map, the
`genericCounters` record, and the `Math.random` consumption index. -/
structure AliasState where
  aliasMap : List (String × String)
  counters : List (String × JsCounter)
  ridx : Nat
deriving Repr

/-- `pickRandom(arr)`: one `Math.random` draw; `"undefined"` stands for the
JS `undefined` produced on an empty pool (excluded by hypotheses). -/
def pickRandom (ctx : AliasCtx) (arr : List String) (st : AliasState) :
    String × AliasState :=
  (arr.getD (ctx.draws st.ridx % arr.length) "undefined",
   { st with ridx := st.ridx + 1 })

/-- ASCII model of JS `toUpperCase` / `toLowerCase` (character-wise). -/
def jsToUpper (s : String) : String := String.mk (s.toList.map Char.toUpper)

def jsToLower (s : String) : String := String.mk (s.toList.map Char.toLower)

/-- Separator class of `original.split(/[\s-]+/)`. -/
def isSepChar (c : Char) : Bool := c.isWhitespace || c = '-'

/-- JS `String.split` on a character-class-run regex: adjacent separators
split once; leading/trailing separators produce empty fragments; the empty
string yields `[""]`.  The first argument is `true` while inside a separator
run. -/
def splitSepsGo (sep : Char → Bool) : Bool → List Char → List Char → List (List Char)
  | false, [], cur => [cur.reverse]
  | false, c :: rest, cur =>
    if sep c then cur.reverse :: splitSepsGo sep true rest []
    else splitSepsGo sep false rest (c :: cur)
  | true, [], _ => [[]]
  | true, c :: rest, cur =>
    if sep c then splitSepsGo sep true rest cur
    else splitSepsGo sep false rest [c]

def jsSplitSeps (s : String) : List String :=
  (splitSepsGo isSepChar false s.toList []).map String.mk

/-- `generatePersonAlias(original)`. -/
def generatePersonAlias (ctx : AliasCtx) (original : String) (st : AliasState) :
    String × AliasState :=
  let parts := jsSplitSeps original
  if 2 ≤ parts.length then
    let (fn, st) := pickRandom ctx (ctx.firstnamesM ++ ctx.firstnamesF) st
    let (sn, st) := pickRandom ctx ctx.surnames st
    (fn ++ " " ++ sn, st)
  else if original = jsToUpper original then
    let (sn, st) := pickRandom ctx ctx.surnames st
    (jsToUpper sn, st)
  else
    pickRandom ctx (ctx.firstnamesM ++ ctx.firstnamesF) st

/-- JS `\w` (ASCII word character), for the `\b` boundary check. -/
def isWordChar (c : Char) : Bool := c.isAlpha || c.isDigit || c = '_'

/-- Alternatives of `/^(SCI|SARL|SAS|SA|EURL|SASU|LLC|LTD|GMBH|AG|INC|CORP)\b/i`
in source order. -/
def legalForms : List String :=
  ["SCI", "SARL", "SAS", "SA", "EURL", "SASU", "LLC", "LTD", "GMBH", "AG",
   "INC", "CORP"]

/-- `original.match(legalFormRegex)?.[1]`: the first alternative (in regex
order) that case-insensitively prefixes `original` and is followed by a word
boundary; returns the prefix as spelled in `original`. -/
def matchLegalForm (original : String) : Option String :=
  let cs := original.toList
  legalForms.findSome? (fun form =>
    let pre := cs.take form.length
    if String.mk (pre.map Char.toUpper) = form ∧
        (∀ c ∈ (cs.drop form.length).take 1, ¬ isWordChar c) then
      some (String.mk pre)
    else none)

/-- `generateCompanyAlias(original)`. -/
def generateCompanyAlias (ctx : AliasCtx) (original : String) (st : AliasState) :
    String × AliasState :=
  match matchLegalForm original with
  | some form =>
    let (c, st) := pickRandom ctx ctx.companiesStandalone st
    (form ++ " " ++ c, st)
  | none =>
    let (p, st) := pickRandom ctx ctx.companiesPrefixes st
    let (s, st) := pickRandom ctx ctx.companiesSuffixes st
    (p ++ " " ++ s, st)

/-- Street-type and street-name pools of `generateAddressAlias`. -/
def addressStreets : List String := ["rue", "avenue", "boulevard", "place", "chemin"]

def addressNames : List String :=
  ["des Tilleuls", "du Commerce", "Victor Hugo", "de la Paix",
   "Jean Jaurès", "Pasteur", "Gambetta", "de la Gare",
   "des Lilas", "du Marché", "de la République"]

/-- `generateAddressAlias(original)`: `Math.floor(Math.random()*150)+1`,
then a street type and a street name. -/
def generateAddressAlias (ctx : AliasCtx) (st : AliasState) : String × AliasState :=
  let num := ctx.draws st.ridx % 150 + 1
  let st := { st with ridx := st.ridx + 1 }
  let (s, st) := pickRandom ctx addressStreets st
  let (n, st) := pickRandom ctx addressNames st
  (toString num ++ " " ++ s ++ " " ++ n, st)

def emailDomains : List String := ["email.fr", "courrier.net", "boite.org", "exemple.com"]

/-- `generateEmailAlias()`: `first.last@domain` with lower-cased,
NFD-stripped random names. -/
def generateEmailAlias (ctx : AliasCtx) (st : AliasState) : String × AliasState :=
  let (fn0, st) := pickRandom ctx (ctx.firstnamesM ++ ctx.firstnamesF) st
  let (sn0, st) := pickRandom ctx ctx.surnames st
  let (d, st) := pickRandom ctx emailDomains st
  (ctx.nfd (jsToLower fn0) ++ "." ++ ctx.nfd (jsToLower sn0) ++ "@" ++ d, st)

/-- `Math.floor(Math.random() * 90) + 10`: a random 2-digit block. -/
def twoDigit (ctx : AliasCtx) (st : AliasState) : String × AliasState :=
  (toString (ctx.draws st.ridx % 90 + 10), { st with ridx := st.ridx + 1 })

/-- `Math.floor(Math.random() * 900) + 100`: a random 3-digit block. -/
def threeDigit (ctx : AliasCtx) (st : AliasState) : String × AliasState :=
  (toString (ctx.draws st.ridx % 900 + 100), { st with ridx := st.ridx + 1 })

/-- `original.replace(/\d/g, () => String(Math.floor(Math.random()*10)))`:
every digit replaced by a fresh random digit, other characters unchanged. -/
def replaceDigitsRandom (ctx : AliasCtx) (cs : List Char) (st : AliasState) :
    List Char × AliasState :=
  match cs with
  | [] => ([], st)
  | c :: rest =>
    if c.isDigit then
      let d := Char.ofNat ('0'.toNat + ctx.draws st.ridx % 10)
      let (rest', st') := replaceDigitsRandom ctx rest { st with ridx := st.ridx + 1 }
      (d :: rest', st')
    else
      let (rest', st') := replaceDigitsRandom ctx rest st
      (c :: rest', st')

/-- `/^0[1-9]/.test(original)`. -/
def startsZeroNonzero (original : String) : Bool :=
  match original.toList with
  | c0 :: c1 :: _ => c0 = '0' && '1' ≤ c1 && c1 ≤ '9'
  | _ => false

/-- `generatePhoneAlias(original)`. -/
def generatePhoneAlias (ctx : AliasCtx) (original : String) (st : AliasState) :
    String × AliasState :=
  if original.startsWith "+33" || startsZeroNonzero original then
    let (d1, st) := twoDigit ctx st
    let (d2, st) := twoDigit ctx st
    let (d3, st) := twoDigit ctx st
    let (d4, st) := twoDigit ctx st
    ("+33 6 " ++ d1 ++ " " ++ d2 ++ " " ++ d3 ++ " " ++ d4, st)
  else if original.startsWith "+44" then
    let (d1, st) := threeDigit ctx st
    let (d2, st) := threeDigit ctx st
    let (d3, st) := threeDigit ctx st
    ("+44 " ++ d1 ++ " " ++ d2 ++ " " ++ d3, st)
  else
    let (cs, st) := replaceDigitsRandom ctx original.toList st
    (String.mk cs, st)

/-- Character class `[\dA-Z]` of `maskWithX`. -/
def maskClass (c : Char) : Bool := c.isDigit || ('A' ≤ c && c ≤ 'Z')

/-- `maskWithX(text)`: `text.replace(/[\dA-Z]/g, (ch, i) => (i < 4 ? ch : "X"))`.
The callback's second argument is the offset of the (single-character) match,
so a matching character is kept at offsets `< 4` and masked at offsets `≥ 4`,
while characters outside `[0-9A-Z]` are left unchanged at every offset. -/
def maskWithX (text : String) : String :=
  String.mk (text.toList.enum.map
    (fun p => if maskClass p.2 && decide (4 ≤ p.1) then 'X' else p.2))

/-- The `CITY_POOL` constant. -/
def CITY_POOL : List String :=
  ["Bordeaux", "Nantes", "Strasbourg", "Montpellier", "Rennes",
   "Lille", "Reims", "Toulon", "Grenoble", "Dijon",
   "Angers", "Clermont-Ferrand", "Brest", "Tours", "Amiens",
   "Metz", "Perpignan", "Orléans", "Caen", "Rouen",
   "Manchester", "Birmingham", "Bristol", "Leeds", "Glasgow",
   "Munich", "Hamburg", "Cologne", "Frankfurt", "Stuttgart"]

/-- `generateRealisticAlias(type, original)`; the default case returns
`` `[${original.substring(0, 3)}...]` ``. -/
def generateRealisticAlias (ctx : AliasCtx) (t : EntityType) (original : String)
    (st : AliasState) : String × AliasState :=
  match t with
  | .person => generatePersonAlias ctx original st
  | .company => generateCompanyAlias ctx original st
  | .address => generateAddressAlias ctx st
  | .city => pickRandom ctx CITY_POOL st
  | .email => generateEmailAlias ctx st
  | .phone => generatePhoneAlias ctx original st
  | .iban => (maskWithX original, st)
  | .ssn => (maskWithX original, st)
  | .url => ("[" ++ original.take 3 ++ "...]", st)
  | .unknown => ("[" ++ original.take 3 ++ "...]", st)

inductive AliasStyle where
  | realistic | generic
deriving Repr, DecidableEq

/-- The fresh-generation path of `generateAlias` (reached when the map lookup
is falsy): generates per style and stores the alias under `originalText`. -/
def generateFresh (ctx : AliasCtx) (t : EntityType) (originalText : String)
    (style : AliasStyle) (st : AliasState) : String × AliasState :=
  let (a, st') :=
    match style with
    | .generic =>
      let (a, cs) := generateGenericAlias t st.counters
      (a, { st with counters := cs })
    | .realistic => generateRealisticAlias ctx t originalText st
  (a, { st' with aliasMap := mapSet st'.aliasMap originalText a })

/-- `generateAlias(type, originalText, aliasMap, style)`.  The lookup guard
is `if (existing) return existing` — JS truthiness, so a stored empty string
does not short-circuit. -/
def generateAlias (ctx : AliasCtx) (t : EntityType) (originalText : String)
    (style : AliasStyle) (st : AliasState) : String × AliasState :=
  match mapGet st.aliasMap originalText with
  | some e => if e = "" then generateFresh ctx t originalText style st else (e, st)
  | none => generateFresh ctx t originalText style st

/-! ### Alias lemmas -/

/-- Name pools are populated: the lists drawn from are nonempty and contain
no empty strings (true of the shipped JSON data files). -/
def goodPools (ctx : AliasCtx) : Prop :=
  ctx.firstnamesM ≠ [] ∧ ctx.surnames ≠ [] ∧ ctx.companiesStandalone ≠ [] ∧
  ctx.companiesPrefixes ≠ [] ∧ ctx.companiesSuffixes ≠ [] ∧
  (∀ s ∈ ctx.firstnamesM ++ ctx.firstnamesF, s ≠ "") ∧
  (∀ s ∈ ctx.surnames, s ≠ "")

instance (ctx : AliasCtx) : Decidable (goodPools ctx) := by
  unfold goodPools; infer_instance

theorem string_append_eq_empty_iff (s t : String) :
    s ++ t = "" ↔ s = "" ∧ t = "" := by
  constructor
  · intro hc
    have hd := congrArg String.data hc
    simp at hd
    cases s with
    | mk a =>
      cases t with
      | mk b =>
        simp [String.data] at hd
        constructor
        · show String.mk a = String.mk []
          rw [hd.1]
        · show String.mk b = String.mk []
          rw [hd.2]
  · rintro ⟨h1, h2⟩
    rw [h1, h2]
    rfl

theorem append_ne_empty_left (s t : String) (h : s ≠ "") : s ++ t ≠ "" := by
  intro hc
  exact h ((string_append_eq_empty_iff s t).mp hc).1

theorem append_ne_empty_right (s t : String) (h : t ≠ "") : s ++ t ≠ "" := by
  intro hc
  exact h ((string_append_eq_empty_iff s t).mp hc).2

theorem mk_eq_empty_iff (l : List Char) : String.mk l = "" ↔ l = [] := by
  constructor
  · intro h
    have := congrArg String.data h
    simpa [String.data] using this
  · intro h; rw [h]

theorem jsToUpper_ne_empty (s : String) (h : s ≠ "") : jsToUpper s ≠ "" := by
  unfold jsToUpper
  intro hc
  rw [mk_eq_empty_iff] at hc
  rw [List.map_eq_nil_iff] at hc
  apply h
  cases s with
  | mk d =>
    simp [String.toList, String.data] at hc
    show String.mk d = ""
    rw [hc]

theorem pickRandom_mem (ctx : AliasCtx) (arr : List String) (st : AliasState)
    (h : arr ≠ []) : (pickRandom ctx arr st).1 ∈ arr := by
  unfold pickRandom
  have hl : 0 < arr.length := List.length_pos.mpr h
  have hlt : ctx.draws st.ridx % arr.length < arr.length := Nat.mod_lt _ hl
  simp only [List.getD, List.get?_eq_getElem?, List.getElem?_eq_getElem hlt,
    Option.getD_some]
  exact List.getElem_mem hlt

theorem generateGenericAlias_ne_empty (t : EntityType) (cs : List (String × JsCounter)) :
    (generateGenericAlias t cs).1 ≠ "" := by
  unfold generateGenericAlias
  cases t <;> simp <;>
    first
    | exact append_ne_empty_left _ _ (by decide)
    | exact append_ne_empty_left _ _ (append_ne_empty_left _ _ (by decide))

theorem replaceDigitsRandom_length (ctx : AliasCtx) (cs : List Char) (st : AliasState) :
    (replaceDigitsRandom ctx cs st).1.length = cs.length := by
  induction cs generalizing st with
  | nil => rfl
  | cons c rest ih =>
    unfold replaceDigitsRandom
    by_cases h : c.isDigit <;> simp [h, ih]

theorem maskWithX_data_length (s : String) :
    (maskWithX s).toList.length = s.toList.length := by
  unfold maskWithX
  simp [String.toList]

theorem maskWithX_eq_empty_iff (s : String) : maskWithX s = "" ↔ s = "" := by
  constructor
  · intro hc
    have h1 := maskWithX_data_length s
    rw [hc] at h1
    cases s with
    | mk d =>
      simp [String.toList, String.data] at h1
      show String.mk d = ""
      rw [List.length_eq_zero.mp h1.symm]
  · intro h
    rw [h]
    rfl

theorem find_map_overwrite {α : Type} (m : List (String × α)) (k : String) (v : α)
    (h : (m.find? (fun p => p.1 == k)).isSome) :
    (m.map (fun p => if p.1 == k then (k, v) else p)).find? (fun p => p.1 == k) =
      some (k, v) := by
  induction m with
  | nil => simp [List.find?] at h
  | cons p rest ih =>
    by_cases hp : p.1 == k
    · simp [List.find?, hp]
    · rw [List.find?_cons_of_neg rest hp] at h
      rw [List.map_cons, if_neg hp,
        List.find?_cons_of_neg (rest.map (fun p => if p.1 == k then (k, v) else p)) hp]
      exact ih h

theorem mapGet_mapSet_self {α : Type} (m : List (String × α)) (k : String) (v : α) :
    mapGet (mapSet m k v) k = some v := by
  unfold mapSet mapHas
  by_cases h : (mapGet m k).isSome
  · rw [if_pos h]
    unfold mapGet at h ⊢
    rw [find_map_overwrite m k v (by
      cases hf : m.find? (fun p => p.1 == k) <;> simp [hf] at h ⊢)]
    rfl
  · rw [if_neg h]
    unfold mapGet at h ⊢
    have hf : m.find? (fun p => p.1 == k) = none := by
      cases hf : m.find? (fun p => p.1 == k) <;> simp [hf] at h ⊢
    induction m with
    | nil => simp [List.find?]
    | cons p rest ih =>
      by_cases hp : p.1 == k
      · simp [List.find?, hp] at hf
      · simp only [List.find?, hp, cond_false, List.cons_append] at hf ⊢
        exact ih (by simp [hf]) hf

theorem replaceDigitsRandom_state (ctx : AliasCtx) (cs : List Char) (st : AliasState) :
    ((replaceDigitsRandom ctx cs st).2).aliasMap = st.aliasMap ∧
    ((replaceDigitsRandom ctx cs st).2).counters = st.counters := by
  induction cs generalizing st with
  | nil => exact ⟨rfl, rfl⟩
  | cons c rest ih =>
    unfold replaceDigitsRandom
    by_cases h : c.isDigit <;> simp [h] <;> exact ih _

/-- The realistic generators only advance the `Math.random` index: the alias
map and the generic counters are untouched. -/
theorem generateRealisticAlias_state (ctx : AliasCtx) (t : EntityType)
    (orig : String) (st : AliasState) :
    ((generateRealisticAlias ctx t orig st).2).aliasMap = st.aliasMap ∧
    ((generateRealisticAlias ctx t orig st).2).counters = st.counters := by
  cases t <;>
    simp only [generateRealisticAlias, generatePersonAlias, generateCompanyAlias,
      generateAddressAlias, generateEmailAlias, generatePhoneAlias, pickRandom,
      twoDigit, threeDigit]
  case person =>
    split_ifs <;> simp
  case company =>
    cases matchLegalForm orig <;> simp
  case address => simp
  case city => simp
  case email => simp
  case phone =>
    split_ifs <;> simp
    exact replaceDigitsRandom_state ctx orig.toList st
  case iban => simp
  case ssn => simp
  case url => simp
  case unknown => simp

theorem generateFresh_fst (ctx : AliasCtx) (t : EntityType) (text : String)
    (style : AliasStyle) (st : AliasState) :
    (generateFresh ctx t text style st).1 =
      match style with
      | .generic => (generateGenericAlias t st.counters).1
      | .realistic => (generateRealisticAlias ctx t text st).1 := by
  cases style <;> simp [generateFresh]

theorem generateFresh_aliasMap (ctx : AliasCtx) (t : EntityType) (text : String)
    (style : AliasStyle) (st : AliasState) :
    ((generateFresh ctx t text style st).2).aliasMap =
      mapSet st.aliasMap text (generateFresh ctx t text style st).1 := by
  cases style with
  | generic => simp [generateFresh]
  | realistic =>
    simp [generateFresh]
    rw [(generateRealisticAlias_state ctx t text st).1]

/-- If a realistic alias comes out empty, the entity was a `phone`, `iban`
or `ssn` with empty original text (all other branches produce a string with
a non-empty literal fragment, given populated pools). -/
theorem realistic_empty_forces (ctx : AliasCtx) (h : goodPools ctx)
    (t : EntityType) (orig : String) (st : AliasState)
    (he : (generateRealisticAlias ctx t orig st).1 = "") :
    (t = .phone ∨ t = .iban ∨ t = .ssn) ∧ orig = "" := by
  obtain ⟨hM, hS, hCS, hCP, hCSuf, hMF, hSs⟩ := h
  cases t
  case person =>
    exfalso
    unfold generateRealisticAlias generatePersonAlias at he
    by_cases h1 : 2 ≤ (jsSplitSeps orig).length
    · rw [if_pos h1] at he
      simp only [pickRandom] at he
      have h12 := ((string_append_eq_empty_iff _ _).mp he).1
      have hsp := ((string_append_eq_empty_iff _ _).mp h12).2
      exact absurd hsp (by decide)
    · rw [if_neg h1] at he
      by_cases h2 : orig = jsToUpper orig
      · rw [if_pos h2] at he
        have hmem : (pickRandom ctx ctx.surnames st).1 ∈ ctx.surnames :=
          pickRandom_mem ctx ctx.surnames st hS
        exact jsToUpper_ne_empty _ (hSs _ hmem) he
      · rw [if_neg h2] at he
        have hmem : (pickRandom ctx (ctx.firstnamesM ++ ctx.firstnamesF) st).1 ∈
            ctx.firstnamesM ++ ctx.firstnamesF :=
          pickRandom_mem ctx _ st (by
            intro hc
            exact hM (List.append_eq_nil.mp hc).1)
        exact hMF _ hmem he
  case company =>
    exfalso
    unfold generateRealisticAlias generateCompanyAlias at he
    cases hm : matchLegalForm orig <;> rw [hm] at he <;> simp only [pickRandom] at he <;>
      exact absurd ((string_append_eq_empty_iff _ _).mp
        ((string_append_eq_empty_iff _ _).mp he).1).2 (by decide)
  case address =>
    exfalso
    unfold generateRealisticAlias generateAddressAlias at he
    simp only [pickRandom] at he
    exact absurd ((string_append_eq_empty_iff _ _).mp
      ((string_append_eq_empty_iff _ _).mp he).1).2 (by decide)
  case city =>
    exfalso
    unfold generateRealisticAlias at he
    have hmem : (pickRandom ctx CITY_POOL st).1 ∈ CITY_POOL :=
      pickRandom_mem ctx CITY_POOL st (by decide)
    have hne : ∀ x ∈ CITY_POOL, x ≠ "" := by decide
    exact hne _ hmem he
  case email =>
    exfalso
    unfold generateRealisticAlias generateEmailAlias at he
    simp only [pickRandom] at he
    exact absurd ((string_append_eq_empty_iff _ _).mp
      ((string_append_eq_empty_iff _ _).mp he).1).2 (by decide)
  case phone =>
    unfold generateRealisticAlias generatePhoneAlias at he
    by_cases h1 : (orig.startsWith "+33" || startsZeroNonzero orig) = true
    · rw [if_pos h1] at he
      exfalso
      simp only [twoDigit] at he
      exact absurd ((string_append_eq_empty_iff _ _).mp
        ((string_append_eq_empty_iff _ _).mp
          ((string_append_eq_empty_iff _ _).mp
            ((string_append_eq_empty_iff _ _).mp
              ((string_append_eq_empty_iff _ _).mp
                ((string_append_eq_empty_iff _ _).mp
                  ((string_append_eq_empty_iff _ _).mp he).1).1).1).1).1).1).1 (by decide)
    · rw [if_neg h1] at he
      by_cases h2 : orig.startsWith "+44" = true
      · rw [if_pos h2] at he
        exfalso
        simp only [threeDigit] at he
        exact absurd ((string_append_eq_empty_iff _ _).mp
          ((string_append_eq_empty_iff _ _).mp
            ((string_append_eq_empty_iff _ _).mp
              ((string_append_eq_empty_iff _ _).mp
                ((string_append_eq_empty_iff _ _).mp he).1).1).1).1).1 (by decide)
      · rw [if_neg h2] at he
        refine ⟨Or.inl rfl, ?_⟩
        rw [mk_eq_empty_iff] at he
        have hlen := replaceDigitsRandom_length ctx orig.toList st
        rw [he] at hlen
        cases orig with
        | mk d =>
          simp [String.toList, String.data] at hlen
          show String.mk d = ""
          rw [List.length_eq_zero.mp hlen.symm]
  case iban =>
    exact ⟨Or.inr (Or.inl rfl), (maskWithX_eq_empty_iff orig).mp he⟩
  case ssn =>
    exact ⟨Or.inr (Or.inr rfl), (maskWithX_eq_empty_iff orig).mp he⟩
  case url =>
    exact absurd ((string_append_eq_empty_iff _ _).mp
      ((string_append_eq_empty_iff _ _).mp he).1).1 (by decide)
  case unknown =>
    exact absurd ((string_append_eq_empty_iff _ _).mp
      ((string_append_eq_empty_iff _ _).mp he).1).1 (by decide)

/-- The branches that can produce an empty alias are deterministic: for empty
original text, `phone`/`iban`/`ssn` realistic aliases are `""` in every state. -/
theorem realistic_empty_all_states (ctx : AliasCtx) (t : EntityType)
    (st : AliasState) (ht : t = .phone ∨ t = .iban ∨ t = .ssn) :
    (generateRealisticAlias ctx t "" st).1 = "" := by
  rcases ht with h | h | h <;> subst h <;> rfl

theorem generateAlias_fresh_case (ctx : AliasCtx) (t : EntityType) (text : String)
    (style : AliasStyle) (st : AliasState)
    (hmg : mapGet st.aliasMap text = none ∨ mapGet st.aliasMap text = some "") :
    generateAlias ctx t text style st = generateFresh ctx t text style st := by
  unfold generateAlias
  rcases hmg with h | h
  · rw [h]
  · rw [h]
    simp

theorem generateFresh_fst_generic (ctx : AliasCtx) (t : EntityType) (text : String)
    (st : AliasState) :
    (generateFresh ctx t text .generic st).1 = (generateGenericAlias t st.counters).1 := by
  simp [generateFresh]

theorem generateFresh_fst_realistic (ctx : AliasCtx) (t : EntityType) (text : String)
    (st : AliasState) :
    (generateFresh ctx t text .realistic st).1 = (generateRealisticAlias ctx t text st).1 := by
  simp [generateFresh]

/-- If a fresh generation comes out empty, it comes out empty from every
state (the empty cases are the state-independent `phone`/`iban`/`ssn`
masking branches on empty input). -/
theorem generateFresh_empty_stable (ctx : AliasCtx) (h : goodPools ctx)
    (t : EntityType) (text : String) (style : AliasStyle) (st st' : AliasState)
    (he : (generateFresh ctx t text style st).1 = "") :
    (generateFresh ctx t text style st').1 = "" := by
  cases style with
  | generic =>
    rw [generateFresh_fst_generic] at he
    exact absurd he (generateGenericAlias_ne_empty t st.counters)
  | realistic =>
    rw [generateFresh_fst_realistic] at he ⊢
    obtain ⟨ht, htext⟩ := realistic_empty_forces ctx h t text st he
    subst htext
    exact realistic_empty_all_states ctx t st' ht

/-- C5 (amended): with populated name pools, two sequential `generateAlias`
calls with the same alias-map state return the identical alias; a map entry
binding the original text to a **non-empty** alias is returned unchanged with
the state untouched; and after any call the map binds the original text to
the returned alias.  (The unamended claim fails only on a map that binds the
original text to an empty alias: the JS guard `if (existing) return existing`
tests truthiness, so an empty-string binding is regenerated and overwritten
— see the counterexample.) -/
theorem generateAlias_consistent (ctx : AliasCtx) (t : EntityType) (text : String)
    (style : AliasStyle) (st : AliasState) (h : goodPools ctx) :
    ((generateAlias ctx t text style st).1 =
      (generateAlias ctx t text style (generateAlias ctx t text style st).2).1) ∧
    (∀ e, mapGet st.aliasMap text = some e → e ≠ "" →
      generateAlias ctx t text style st = (e, st)) ∧
    (mapGet ((generateAlias ctx t text style st).2).aliasMap text =
      some (generateAlias ctx t text style st).1) := by
  have hbound : ∀ e, mapGet st.aliasMap text = some e → e ≠ "" →
      generateAlias ctx t text style st = (e, st) := by
    intro e hm hne
    unfold generateAlias
    rw [hm]
    simp [hne]
  have hfreshA : (mapGet st.aliasMap text = none ∨ mapGet st.aliasMap text = some "") →
      (generateAlias ctx t text style st).1 =
      (generateAlias ctx t text style (generateAlias ctx t text style st).2).1 := by
    intro hmg
    rw [generateAlias_fresh_case ctx t text style st hmg]
    have hs : mapGet ((generateFresh ctx t text style st).2).aliasMap text =
        some (generateFresh ctx t text style st).1 := by
      rw [generateFresh_aliasMap]
      exact mapGet_mapSet_self _ _ _
    by_cases hge : (generateFresh ctx t text style st).1 = ""
    · rw [generateAlias_fresh_case ctx t text style _ (Or.inr (hge ▸ hs))]
      rw [hge, generateFresh_empty_stable ctx h t text style st _ hge]
    · unfold generateAlias
      rw [hs]
      simp [hge]
  refine ⟨?_, hbound, ?_⟩
  · cases hm : mapGet st.aliasMap text with
    | some e =>
      by_cases hne : e = ""
      · subst hne
        exact hfreshA (Or.inr hm)
      · have hb := hbound e hm hne
        simp [hb]
    | none => exact hfreshA (Or.inl hm)
  · cases hm : mapGet st.aliasMap text with
    | some e =>
      by_cases hne : e = ""
      · subst hne
        rw [generateAlias_fresh_case ctx t text style st (Or.inr hm)]
        rw [generateFresh_aliasMap]
        exact mapGet_mapSet_self _ _ _
      · rw [hbound e hm hne]
        exact hm
    | none =>
      rw [generateAlias_fresh_case ctx t text style st (Or.inl hm)]
      rw [generateFresh_aliasMap]
      exact mapGet_mapSet_self _ _ _

/-- A small populated context for concrete evaluations. -/
def ctxW : AliasCtx :=
  { firstnamesM := ["Luc"], firstnamesF := ["Zoe"], firstnamesNeutral := ["Alix"]
    surnames := ["Nerval"], companiesStandalone := ["Orion"]
    companiesPrefixes := ["Groupe"], companiesSuffixes := ["Atlantique"]
    draws := fun _ => 0, nfd := fun s => s }

/-- Fresh alias-generation state (module load / new session). -/
def stW : AliasState := { aliasMap := [], counters := initialCounters, ridx := 0 }

/-- C5 counterexample: a map that already binds "x" (to the empty string) is
not returned unchanged — `generateAlias` regenerates and returns a different
alias, falsifying the claim's "bound alias is returned unchanged" conjunct. -/
theorem generateAlias_empty_binding_counterexample :
    (generateAlias ctxW .person "x" .generic
      { aliasMap := [("x", "")], counters := initialCounters, ridx := 0 }).1 =
        "Personne 1" ∧
    ("Personne 1" : String) ≠ "" := by
  constructor
  · rfl
  · decide

/-- Witness for C5 at a concrete input. -/
theorem generateAlias_consistent_witness :
    goodPools ctxW ∧
    (generateAlias ctxW .person "Dupont" .realistic stW).1 =
      (generateAlias ctxW .person "Dupont" .realistic
        (generateAlias ctxW .person "Dupont" .realistic stW).2).1 :=
  ⟨by decide,
   (generateAlias_consistent ctxW .person "Dupont" .realistic stW (by decide)).1⟩

/-- C6: the generic-style counters for `iban` (and `ssn`) are broken in a
fresh session: the `genericCounters` record initialiser has no `iban`/`ssn`
keys, so `++genericCounters[type]` is `NaN` and `|| 1` pins `n` to 1 forever
— two different fresh IBAN originals receive the *same* numbered placeholder,
while the initialised types (person, …) do increment 1, 2, … as the spec
states. -/
theorem generic_iban_counter_stuck :
    (generateAlias ctxW .iban "FR001" .generic stW).1 =
      "FRXX XXXX XXXX XXXX XXXX XXX1" ∧
    (generateAlias ctxW .iban "FR002" .generic
        (generateAlias ctxW .iban "FR001" .generic stW).2).1 =
      "FRXX XXXX XXXX XXXX XXXX XXX1" ∧
    (generateAlias ctxW .person "Dupont" .generic stW).1 = "Personne 1" ∧
    (generateAlias ctxW .person "Martin" .generic
        (generateAlias ctxW .person "Dupont" .generic stW).2).1 = "Personne 2" := by
  exact ⟨rfl, rfl, rfl, rfl⟩

/-- C7 counterexample: `maskWithX` does **not** replace every character after
the first 4 with `'X'` — characters outside `[0-9A-Z]` (here the grouping
space at offset 4) are left unchanged, so the masked IBAN keeps its spaces. -/
theorem maskWithX_counterexample :
    maskWithX "FR76 3000 6000" = "FR76 XXXX XXXX" ∧
    maskWithX "FR76 3000 6000" ≠ "FR76" ++ String.mk (List.replicate 10 'X') := by
  constructor
  · rfl
  · decide

/-- C7 (amended): the realistic alias of an `iban` or `ssn` entity is
`maskWithX(original)`, which preserves the length, leaves the first 4
characters unchanged, and from position 4 on replaces exactly the digits and
uppercase letters with the mask character `'X'`, leaving all other characters
(e.g. the grouping spaces) unchanged. -/
theorem maskWithX_spec (ctx : AliasCtx) (st : AliasState) (orig : String) :
    (generateRealisticAlias ctx .iban orig st).1 = maskWithX orig ∧
    (generateRealisticAlias ctx .ssn orig st).1 = maskWithX orig ∧
    (maskWithX orig).toList.length = orig.toList.length ∧
    (∀ i : Nat, i < 4 → (maskWithX orig).toList[i]? = orig.toList[i]?) ∧
    (∀ i : Nat, 4 ≤ i → (maskWithX orig).toList[i]? =
      (orig.toList[i]?).map (fun c => if maskClass c then 'X' else c)) := by
  refine ⟨rfl, rfl, maskWithX_data_length orig, ?_, ?_⟩
  · intro i hi
    unfold maskWithX
    show (String.mk _).toList[i]? = _
    simp only [String.toList, String.data]
    rw [List.getElem?_map, List.getElem?_enum]
    cases horig : orig.data[i]? with
    | none => rfl
    | some c =>
      simp
      intro _ h4
      omega
  · intro i hi
    unfold maskWithX
    show (String.mk _).toList[i]? = _
    simp only [String.toList, String.data]
    rw [List.getElem?_map, List.getElem?_enum]
    cases horig : orig.data[i]? with
    | none => rfl
    | some c =>
      by_cases hc : maskClass c
      · simp [hc, hi]
      · simp [hc]

/-- Witness for C7 at a concrete input: position 6 of the masked string is
`'X'` while position 4 (a space) is unchanged. -/
theorem maskWithX_spec_witness :
    (maskWithX "FR76 3000 6000").toList[6]? = some 'X' ∧
    (maskWithX "FR76 3000 6000").toList[4]? = some ' ' := by
  constructor
  · have h := (maskWithX_spec ctxW stW "FR76 3000 6000").2.2.2.2 6 (by decide)
    rw [h]
    decide
  · have h := (maskWithX_spec ctxW stW "FR76 3000 6000").2.2.2.2 4 (by decide)
    rw [h]
    decide

/-- C10: for an original text not already bound in the alias map, the
realistic alias of an entity whose type falls into the `default` switch case
(`unknown`, and likewise `url`) is `"[" ++ (first 3 characters) ++ "...]"`,
and it is stored in the map — the proposed alias embeds a verbatim prefix of
the original text. -/
theorem generateAlias_default_embeds_original (ctx : AliasCtx) (t : EntityType)
    (text : String) (st : AliasState)
    (hmg : mapGet st.aliasMap text = none)
    (ht : t = .unknown ∨ t = .url) :
    (generateAlias ctx t text .realistic st).1 = "[" ++ text.take 3 ++ "...]" ∧
    mapGet ((generateAlias ctx t text .realistic st).2).aliasMap text =
      some ("[" ++ text.take 3 ++ "...]") := by
  have hfst : (generateAlias ctx t text .realistic st).1 =
      "[" ++ text.take 3 ++ "...]" := by
    rw [generateAlias_fresh_case ctx t text .realistic st (Or.inl hmg)]
    rw [generateFresh_fst_realistic]
    rcases ht with h | h <;> (subst h; rfl)
  refine ⟨hfst, ?_⟩
  have hs : mapGet ((generateAlias ctx t text .realistic st).2).aliasMap text =
      some (generateAlias ctx t text .realistic st).1 := by
    rw [generateAlias_fresh_case ctx t text .realistic st (Or.inl hmg)]
    rw [generateFresh_aliasMap]
    exact mapGet_mapSet_self _ _ _
  rw [hs, hfst]

/-- Witness for C10 at a concrete input. -/
theorem generateAlias_default_embeds_original_witness :
    (generateAlias ctxW .unknown "Hydrangea" .realistic stW).1 = "[Hyd...]" := by
  have h := (generateAlias_default_embeds_original ctxW .unknown "Hydrangea" stW rfl
    (Or.inl rfl)).1
  rw [h]
  decide

/-! ## Entity graph (`entity-graph.ts`)

The persistent store behind `EntityGraphPort` is embedded through its
in-memory reference implementation `MemoryEntityGraph`; `await` points are
pure state passing.  `Date.now`/`toISOString` and the crypto-random
`generateId` are oracle parameters (`now`, `genId`); `fingerprint` (a JS
`SubtleCrypto` digest) is the oracle `fpF`. -/

structure KnownEntity where
  id : String
  canonical : String
  type : EntityType
  firstSeen : String
  lastSeen : String
  documentCount : Nat
deriving Repr, DecidableEq

structure EntityOccurrence where
  entityId : String
  documentId : String
  originalText : String
  «alias» : String
  confirmed : Bool
deriving Repr, DecidableEq

structure DocumentRecord where
  id : String
  label : String
  processedAt : String
  entityCount : Nat
  fingerprint : String
deriving Repr, DecidableEq

/-- The private maps/array of `MemoryEntityGraph`. -/
structure MemGraph where
  entities : List (String × KnownEntity)
  occurrences : List EntityOccurrence
  documents : List (String × DocumentRecord)
deriving Repr, DecidableEq

def emptyGraph : MemGraph := { entities := [], occurrences := [], documents := [] }

/-- JS `String.trim` (ASCII-whitespace model). -/
def jsTrim (s : String) : String :=
  String.mk (((s.toList.dropWhile Char.isWhitespace).reverse.dropWhile
    Char.isWhitespace).reverse)

/-- `replace(/\s+/g, " ")`: collapse every whitespace run to one space.
The flag is `true` while inside a whitespace run already emitted. -/
def collapseWsGo : Bool → List Char → List Char
  | _, [] => []
  | inRun, c :: rest =>
    if c.isWhitespace then
      if inRun then collapseWsGo true rest
      else ' ' :: collapseWsGo true rest
    else c :: collapseWsGo false rest

def collapseWs (l : List Char) : List Char := collapseWsGo false l

/-- `canonicalize(text)`: `text.trim().toUpperCase().replace(/\s+/g, " ")`. -/
def canonicalize (text : String) : String :=
  String.mk (collapseWs (jsToUpper (jsTrim text)).toList)

/-- `findByCanonical`: filters the entity map values on
`e.canonical === canonical.toUpperCase()`. -/
def findByCanonical (g : MemGraph) (canonical : String) : List KnownEntity :=
  (g.entities.map (·.2)).filter (fun e => e.canonical == jsToUpper canonical)

def putEntity (g : MemGraph) (e : KnownEntity) : MemGraph :=
  { g with entities := mapSet g.entities e.id e }

def getEntity (g : MemGraph) (id : String) : Option KnownEntity :=
  mapGet g.entities id

def addOccurrence (g : MemGraph) (o : EntityOccurrence) : MemGraph :=
  { g with occurrences := g.occurrences ++ [o] }

def getOccurrences (g : MemGraph) (entityId : String) : List EntityOccurrence :=
  g.occurrences.filter (fun o => o.entityId == entityId)

def getDocumentOccurrences (g : MemGraph) (documentId : String) : List EntityOccurrence :=
  g.occurrences.filter (fun o => o.documentId == documentId)

def putDocument (g : MemGraph) (doc : DocumentRecord) : MemGraph :=
  { g with documents := mapSet g.documents doc.id doc }

def getDocument (g : MemGraph) (id : String) : Option DocumentRecord :=
  mapGet g.documents id

def entityCount (g : MemGraph) : Nat := g.entities.length

/-- A detected entity handed to `recordDocument`. -/
structure RecEntity where
  text : String
  type : EntityType
  «alias» : String
  confirmed : Bool
  knownEntityId : Option String
deriving Repr, DecidableEq

/-- The per-entity body of `recordDocument`'s loop, threading the graph and
the `generateId` consumption index. -/
def recordEntity (genId : Nat → String) (now : String) (documentId : String)
    (ent : RecEntity) (g : MemGraph) (gidx : Nat) : MemGraph × Nat :=
  let canonical := canonicalize ent.text
  let entityId? : Option String :=
    match ent.knownEntityId with
    | some i => some i
    | none =>
      let existing := findByCanonical g canonical
      match existing.find? (fun e => e.type == ent.type) with
      | some m => some m.id
      | none => none
  match entityId? with
  | some entityId =>
    let g1 :=
      match getEntity g entityId with
      | some known =>
        let occurrences := getOccurrences g entityId
        let uniqueDocs := jsSetList (occurrences.map (·.documentId) ++ [documentId])
        putEntity g { known with lastSeen := now, documentCount := uniqueDocs.length }
      | none => g
    let occ : EntityOccurrence :=
      { entityId := entityId, documentId := documentId, originalText := ent.text,
        «alias» := ent.«alias», confirmed := ent.confirmed }
    (addOccurrence g1 occ, gidx)
  | none =>
    let entityId := genId gidx
    let fresh : KnownEntity :=
      { id := entityId, canonical := canonical, type := ent.type,
        firstSeen := now, lastSeen := now, documentCount := 1 }
    let g1 := putEntity g fresh
    let occ : EntityOccurrence :=
      { entityId := entityId, documentId := documentId, originalText := ent.text,
        «alias» := ent.«alias», confirmed := ent.confirmed }
    (addOccurrence g1 occ, gidx + 1)

/-- `recordDocument(documentId, label, text, entities, graph)`. -/
def recordDocument (fpF : String → String) (genId : Nat → String) (now : String)
    (documentId label text : String) (entities : List RecEntity)
    (g : MemGraph) (gidx : Nat) : MemGraph × Nat :=
  let fp := fpF text
  let doc : DocumentRecord :=
    { id := documentId, label := label, processedAt := now,
      entityCount := entities.length, fingerprint := fp }
  let g := putDocument g doc
  entities.foldl (fun p ent => recordEntity genId now documentId ent p.1 p.2) (g, gidx)

/-! ### Canonicalization lemmas -/

theorem char_ofNat_toNat_sub (n : Nat) (h1 : 97 ≤ n) (h2 : n ≤ 122) :
    (Char.ofNat (n - 32)).toNat = n - 32 := by
  have hv : (n - 32).isValidChar := by
    left
    omega
  rw [Char.ofNat, dif_pos hv]
  rfl

theorem char_toUpper_idem (c : Char) : c.toUpper.toUpper = c.toUpper := by
  unfold Char.toUpper
  by_cases h : c.toNat ≥ 97 ∧ c.toNat ≤ 122
  · rw [if_pos h]
    have hn := char_ofNat_toNat_sub c.toNat h.1 h.2
    rw [if_neg (by rw [hn]; omega)]
  · rw [if_neg h, if_neg h]

theorem collapseWsGo_mem (l : List Char) :
    ∀ b, ∀ c ∈ collapseWsGo b l, c = ' ' ∨ c ∈ l := by
  induction l with
  | nil =>
    intro b c hc
    cases b <;> simp [collapseWsGo] at hc
  | cons a rest ih =>
    intro b c hc
    by_cases hw : a.isWhitespace
    · cases b
      · rw [show collapseWsGo false (a :: rest) =
            ' ' :: collapseWsGo true rest by simp [collapseWsGo, hw]] at hc
        rcases List.mem_cons.mp hc with h | h
        · exact Or.inl h
        · rcases ih true c h with h' | h'
          · exact Or.inl h'
          · exact Or.inr (List.mem_cons_of_mem _ h')
      · rw [show collapseWsGo true (a :: rest) =
            collapseWsGo true rest by simp [collapseWsGo, hw]] at hc
        rcases ih true c hc with h' | h'
        · exact Or.inl h'
        · exact Or.inr (List.mem_cons_of_mem _ h')
    · rw [show collapseWsGo b (a :: rest) =
          a :: collapseWsGo false rest by cases b <;> simp [collapseWsGo, hw]] at hc
      rcases List.mem_cons.mp hc with h | h
      · exact Or.inr (h ▸ List.mem_cons_self _ _)
      · rcases ih false c h with h' | h'
        · exact Or.inl h'
        · exact Or.inr (List.mem_cons_of_mem _ h')

theorem collapseWs_mem (l : List Char) : ∀ c ∈ collapseWs l, c = ' ' ∨ c ∈ l :=
  collapseWsGo_mem l false

/-- `canonicalize` output is a fixed point of upper-casing: its characters
are spaces or upper-cased characters. -/
theorem jsToUpper_canonicalize (s : String) :
    jsToUpper (canonicalize s) = canonicalize s := by
  unfold canonicalize jsToUpper
  congr 1
  show (collapseWs ((String.mk ((jsTrim s).toList.map Char.toUpper)).toList)).map
      Char.toUpper = _
  have hfix : ∀ c ∈ collapseWs ((jsTrim s).toList.map Char.toUpper),
      Char.toUpper c = c := by
    intro c hc
    rcases collapseWs_mem _ c hc with h | h
    · rw [h]
      decide
    · obtain ⟨x, _, hx⟩ := List.mem_map.mp h
      rw [← hx]
      exact char_toUpper_idem x
  exact (List.map_congr_left hfix).trans (List.map_id _)

/-- C8: recording the same canonical entity (same type) in two different
documents keeps `entityCount()` at 1, recomputes the entity's
`documentCount` to 2 as the number of distinct document IDs across its
occurrences plus the current document, and appends one `EntityOccurrence`
row per call. -/
theorem recordDocument_twice
    (fpF : String → String) (genId : Nat → String) (now1 now2 : String)
    (d1 d2 lab1 lab2 x1 x2 t1 t2 a1 a2 : String) (ty : EntityType) (c1 c2 : Bool)
    (r1 : MemGraph × Nat) (r2 : MemGraph × Nat)
    (hd : d1 ≠ d2) (hc : canonicalize t1 = canonicalize t2)
    (hr1 : r1 = recordDocument fpF genId now1 d1 lab1 x1
      [⟨t1, ty, a1, c1, none⟩] emptyGraph 0)
    (hr2 : r2 = recordDocument fpF genId now2 d2 lab2 x2
      [⟨t2, ty, a2, c2, none⟩] r1.1 r1.2) :
    entityCount r2.1 = 1 ∧
    (∀ p ∈ r2.1.entities, p.2.documentCount = 2) ∧
    r2.1.occurrences.length = 2 := by
  subst hr1 hr2
  have h1 : (canonicalize t1 == jsToUpper (canonicalize t2)) = true := by
    rw [jsToUpper_canonicalize, ← hc]
    simp
  have h2 : (d2 == d1) = false := by
    simp
    exact fun hcc => hd hcc.symm
  simp only [recordDocument, recordEntity, putDocument, putEntity, addOccurrence,
    getEntity, getOccurrences, getDocumentOccurrences, findByCanonical, emptyGraph,
    mapSet, mapHas, mapGet, jsSetList, entityCount, List.foldl, List.map, List.filter,
    List.find?, List.contains, h1, h2, beq_self_eq_true]
  simp [h2]
  rw [if_neg (fun hcc => hd hcc.symm)]
  rfl

/-- Witness for C8 at concrete inputs. -/
theorem recordDocument_twice_witness :
    entityCount (recordDocument (fun _ => "fp") (fun n => "ent_" ++ toString n)
      "2026-02-02T00:00:00Z" "doc_2" "L2" "y"
      [⟨" jean dupont ", .person, "B", true, none⟩]
      (recordDocument (fun _ => "fp") (fun n => "ent_" ++ toString n)
        "2026-02-01T00:00:00Z" "doc_1" "L1" "x"
        [⟨"Jean  Dupont", .person, "A", true, none⟩] emptyGraph 0).1
      (recordDocument (fun _ => "fp") (fun n => "ent_" ++ toString n)
        "2026-02-01T00:00:00Z" "doc_1" "L1" "x"
        [⟨"Jean  Dupont", .person, "A", true, none⟩] emptyGraph 0).2).1 = 1 ∧
    (recordDocument (fun _ => "fp") (fun n => "ent_" ++ toString n)
      "2026-02-02T00:00:00Z" "doc_2" "L2" "y"
      [⟨" jean dupont ", .person, "B", true, none⟩]
      (recordDocument (fun _ => "fp") (fun n => "ent_" ++ toString n)
        "2026-02-01T00:00:00Z" "doc_1" "L1" "x"
        [⟨"Jean  Dupont", .person, "A", true, none⟩] emptyGraph 0).1
      (recordDocument (fun _ => "fp") (fun n => "ent_" ++ toString n)
        "2026-02-01T00:00:00Z" "doc_1" "L1" "x"
        [⟨"Jean  Dupont", .person, "A", true, none⟩] emptyGraph 0).2).1.occurrences.length
      = 2 := by
  have h := recordDocument_twice (fun _ => "fp") (fun n => "ent_" ++ toString n)
    "2026-02-01T00:00:00Z" "2026-02-02T00:00:00Z" "doc_1" "doc_2" "L1" "L2" "x" "y"
    "Jean  Dupont" " jean dupont " "A" "B" .person true true _ _
    (by decide) (by decide) rfl rfl
  exact ⟨h.1, h.2.2⟩

/-! ### `findMatches` -/

inductive MatchConfidence where
  | exact | likely | possible
deriving Repr, DecidableEq

structure EntityMatch where
  knownEntity : KnownEntity
  matchConfidence : MatchConfidence
  previousAlias : String
  previousDocument : DocumentRecord
  coEntities : List String
deriving Repr, DecidableEq

/-- One element of the `detectedEntities` argument. -/
structure Detected where
  text : String
  type : EntityType
deriving Repr, DecidableEq

/-- Keep the later-seen of two entities (`lastSeen` descending, first wins
ties — the head of a stable descending sort). -/
def newerEntity (b k : KnownEntity) : KnownEntity :=
  if b.lastSeen < k.lastSeen then k else b

def pickNewer (acc : Option KnownEntity) (k : KnownEntity) : Option KnownEntity :=
  match acc with
  | none => some k
  | some b => some (newerEntity b k)

/-- `known.filter(k => k.type === type).sort((a, b) =>
b.lastSeen.localeCompare(a.lastSeen))[0]`: the head of a stable descending
sort is the first element attaining the maximal `lastSeen`. -/
def bestSameType (known : List KnownEntity) (ty : EntityType) : Option KnownEntity :=
  (known.filter (fun k => k.type == ty)).foldl pickNewer none

/-- Keep the occurrence with the later `documentId` (first wins ties). -/
def laterOccurrence (b o : EntityOccurrence) : EntityOccurrence :=
  if b.documentId < o.documentId then o else b

def pickLater (acc : Option EntityOccurrence) (o : EntityOccurrence) :
    Option EntityOccurrence :=
  match acc with
  | none => some o
  | some b => some (laterOccurrence b o)

/-- `occurrences.sort((a, b) => b.documentId.localeCompare(a.documentId))[0]`:
the first occurrence attaining the maximal `documentId`. -/
def lastOccurrence (occs : List EntityOccurrence) : Option EntityOccurrence :=
  occs.foldl pickLater none

/-- The per-candidate body of `findMatches` (phases 2–4 for one detected
entity).  The request-scoped document/occurrence caches of the source are
result-transparent over a pure store and are therefore not modelled. -/
def processCandidate (g : MemGraph) (currentTexts : List String) (d : Detected) :
    Option EntityMatch :=
  let canonical := canonicalize d.text
  match findByCanonical g canonical with
  | [] => none
  | k0 :: ks =>
    let (entity, isFallback) :=
      match bestSameType (k0 :: ks) d.type with
      | some b => (b, false)
      | none => (k0, true)
    match lastOccurrence (getOccurrences g entity.id) with
    | none => none
    | some lastOcc =>
      match getDocument g lastOcc.documentId with
      | none => none
      | some prevDoc =>
        let coOcc := getDocumentOccurrences g lastOcc.documentId
        let coEntityTexts :=
          (coOcc.filter (fun o => !(o.entityId == entity.id))).map (·.originalText)
        if isFallback then
          some { knownEntity := entity, matchConfidence := .possible,
                 previousAlias := lastOcc.«alias», previousDocument := prevDoc,
                 coEntities := coEntityTexts.take 5 }
        else
          let coOverlap :=
            coEntityTexts.filter (fun t => currentTexts.contains (canonicalize t))
          let conf :=
            if entity.canonical = canonical ∧ 1 ≤ coOverlap.length then
              MatchConfidence.exact
            else if entity.canonical = canonical then MatchConfidence.likely
            else MatchConfidence.possible
          some { knownEntity := entity, matchConfidence := conf,
                 previousAlias := lastOcc.«alias», previousDocument := prevDoc,
                 coEntities := coEntityTexts.take 5 }

/-- One loop step of `findMatches`: store the match under the detected text. -/
def findMatchesStep (g : MemGraph) (currentTexts : List String)
    (m : List (String × EntityMatch)) (d : Detected) : List (String × EntityMatch) :=
  match processCandidate g currentTexts d with
  | none => m
  | some em => mapSet m d.text em

/-- `findMatches(detectedEntities, graph)` over the in-memory store, with the
parallel `Promise.all` phases sequentialised (pure reads commute). -/
def findMatches (detected : List Detected) (g : MemGraph) :
    List (String × EntityMatch) :=
  if detected = [] then []
  else
    let currentTexts := jsSetList (detected.map (fun e => canonicalize e.text))
    detected.foldl (findMatchesStep g currentTexts) []

/-! ### `findMatches` lemmas -/

theorem find_map_overwrite_ne {α : Type} (m : List (String × α)) (k k' : String)
    (v : α) (h : k' ≠ k) :
    (m.map (fun p => if p.1 == k then (k, v) else p)).find? (fun p => p.1 == k') =
      m.find? (fun p => p.1 == k') := by
  induction m with
  | nil => simp
  | cons p rest ih =>
    by_cases hp : (p.1 == k) = true
    · have hk : p.1 = k := by simpa using hp
      have h1 : (k == k') = false := beq_eq_false_iff_ne.mpr (Ne.symm h)
      have h2 : (p.1 == k') = false := by rw [hk]; exact h1
      rw [List.map_cons, if_pos hp, List.find?_cons, List.find?_cons]
      simp only [h1, h2]
      exact ih
    · by_cases hc : (p.1 == k') = true
      · rw [List.map_cons, if_neg hp, List.find?_cons, List.find?_cons]
        simp only [hc]
      · have hc' : (p.1 == k') = false := by
          cases hcc : (p.1 == k') with
          | true => exact absurd hcc hc
          | false => rfl
        rw [List.map_cons, if_neg hp, List.find?_cons, List.find?_cons]
        simp only [hc']
        exact ih

theorem find_append_single_ne {α : Type} (m : List (String × α)) (k k' : String)
    (v : α) (h : k' ≠ k) :
    (m ++ [(k, v)]).find? (fun p => p.1 == k') = m.find? (fun p => p.1 == k') := by
  induction m with
  | nil =>
    have h1 : (k == k') = false := beq_eq_false_iff_ne.mpr (Ne.symm h)
    show ((k, v) :: []).find? (fun p => p.1 == k') = none
    rw [List.find?_cons]
    simp only [h1]
    rfl
  | cons p rest ih =>
    by_cases hc : (p.1 == k') = true
    · rw [List.cons_append, List.find?_cons, List.find?_cons]
      simp only [hc]
    · have hc' : (p.1 == k') = false := by
        cases hcc : (p.1 == k') with
        | true => exact absurd hcc hc
        | false => rfl
      rw [List.cons_append, List.find?_cons, List.find?_cons]
      simp only [hc']
      exact ih

theorem mapGet_mapSet_ne {α : Type} (m : List (String × α)) (k k' : String)
    (v : α) (h : k' ≠ k) : mapGet (mapSet m k v) k' = mapGet m k' := by
  unfold mapSet
  by_cases hh : mapHas m k = true
  · rw [if_pos hh]
    unfold mapGet
    rw [find_map_overwrite_ne m k k' v h]
  · rw [if_neg hh]
    unfold mapGet
    rw [find_append_single_ne m k k' v h]

theorem foldl_findMatchesStep_other (g : MemGraph) (cts : List String)
    (l : List Detected) (m : List (String × EntityMatch)) (key : String)
    (h : ∀ d ∈ l, d.text ≠ key) :
    mapGet (l.foldl (findMatchesStep g cts) m) key = mapGet m key := by
  induction l generalizing m with
  | nil => rfl
  | cons d rest ih =>
    rw [List.foldl_cons]
    rw [ih _ (fun d' hd' => h d' (List.mem_cons_of_mem _ hd'))]
    unfold findMatchesStep
    cases processCandidate g cts d with
    | none => rfl
    | some em => exact mapGet_mapSet_ne _ _ _ _ (h d (List.mem_cons_self _ _)).symm

theorem foldl_findMatchesStep_get (g : MemGraph) (cts : List String)
    (l : List Detected) (m : List (String × EntityMatch)) (d : Detected)
    (hd : d ∈ l) (hnodup : (l.map (·.text)).Nodup) :
    mapGet (l.foldl (findMatchesStep g cts) m) d.text =
      match processCandidate g cts d with
      | none => mapGet m d.text
      | some em => some em := by
  induction l generalizing m with
  | nil => cases hd
  | cons d0 rest ih =>
    rw [List.map_cons, List.nodup_cons] at hnodup
    rw [List.foldl_cons]
    rcases List.mem_cons.mp hd with heq | hmem
    · subst heq
      have hother : ∀ d' ∈ rest, d'.text ≠ d.text := by
        intro d' hd' hcon
        exact hnodup.1 (hcon ▸ List.mem_map_of_mem (·.text) hd')
      rw [foldl_findMatchesStep_other g cts rest _ _ hother]
      unfold findMatchesStep
      cases hp : processCandidate g cts d with
      | none => rfl
      | some em => exact mapGet_mapSet_self _ _ _
    · have hne : d.text ≠ d0.text := by
        intro hcon
        exact hnodup.1 (hcon ▸ List.mem_map_of_mem (·.text) hmem)
      rw [ih _ hmem hnodup.2]
      cases processCandidate g cts d with
      | none =>
        unfold findMatchesStep
        cases processCandidate g cts d0 with
        | none => rfl
        | some em0 => exact mapGet_mapSet_ne _ _ _ _ hne
      | some em => rfl

theorem findMatches_get (detected : List Detected) (g : MemGraph) (d : Detected)
    (hd : d ∈ detected) (hnodup : (detected.map (·.text)).Nodup) :
    mapGet (findMatches detected g) d.text =
      processCandidate g (jsSetList (detected.map (fun e => canonicalize e.text))) d := by
  unfold findMatches
  rw [if_neg (by rintro rfl; cases hd)]
  rw [foldl_findMatchesStep_get g _ detected [] d hd hnodup]
  cases processCandidate g (jsSetList (detected.map (fun e => canonicalize e.text))) d with
  | none => rfl
  | some em => rfl

theorem foldl_pickNewer_mem :
    ∀ (l : List KnownEntity) (acc : Option KnownEntity) (b : KnownEntity),
      l.foldl pickNewer acc = some b → b ∈ l ∨ acc = some b := by
  intro l
  induction l with
  | nil =>
    intro acc b h
    exact Or.inr h
  | cons x rest ih =>
    intro acc b h
    rw [List.foldl_cons] at h
    cases acc with
    | none =>
      rcases ih (pickNewer none x) b h with hm | he
      · exact Or.inl (List.mem_cons_of_mem _ hm)
      · refine Or.inl ?_
        have : x = b := by simpa [pickNewer] using he
        exact this ▸ List.mem_cons_self _ _
    | some a =>
      rcases ih (pickNewer (some a) x) b h with hm | he
      · exact Or.inl (List.mem_cons_of_mem _ hm)
      · have hab : newerEntity a x = b := by simpa [pickNewer] using he
        unfold newerEntity at hab
        by_cases hlt : a.lastSeen < x.lastSeen
        · rw [if_pos hlt] at hab
          exact Or.inl (hab ▸ List.mem_cons_self _ _)
        · rw [if_neg hlt] at hab
          right
          rw [hab]

theorem bestSameType_mem (known : List KnownEntity) (ty : EntityType)
    (b : KnownEntity) (h : bestSameType known ty = some b) :
    b ∈ known ∧ b.type = ty := by
  unfold bestSameType at h
  rcases foldl_pickNewer_mem (known.filter (fun k => k.type == ty)) none b h with
    hm | he
  · obtain ⟨h1, h2⟩ := List.mem_filter.mp hm
    exact ⟨h1, by simpa using h2⟩
  · cases he

theorem findByCanonical_canonical (g : MemGraph) (c : String) (e : KnownEntity)
    (h : e ∈ findByCanonical g c) : e.canonical = jsToUpper c := by
  unfold findByCanonical at h
  have := (List.mem_filter.mp h).2
  simpa using this

theorem jsSetList_mem_aux (l acc : List String) (x : String) :
    x ∈ l.foldl (fun acc x => if acc.contains x then acc else acc ++ [x]) acc ↔
      x ∈ acc ∨ x ∈ l := by
  induction l generalizing acc with
  | nil => simp
  | cons a rest ih =>
    rw [List.foldl_cons]
    by_cases hc : acc.contains a
    · rw [if_pos hc, ih]
      constructor
      · rintro (h | h)
        · exact Or.inl h
        · exact Or.inr (List.mem_cons_of_mem _ h)
      · rintro (h | h)
        · exact Or.inl h
        · rcases List.mem_cons.mp h with h' | h'
          · subst h'
            exact Or.inl (by simpa using hc)
          · exact Or.inr h'
    · rw [if_neg hc, ih]
      constructor
      · rintro (h | h)
        · rcases List.mem_append.mp h with h' | h'
          · exact Or.inl h'
          · refine Or.inr (List.mem_cons.mpr (Or.inl ?_))
            simpa using h'
        · exact Or.inr (List.mem_cons_of_mem _ h)
      · rintro (h | h)
        · exact Or.inl (List.mem_append_left _ h)
        · rcases List.mem_cons.mp h with h' | h'
          · exact Or.inl (List.mem_append_right _ (by simp [h']))
          · exact Or.inr h'

theorem jsSetList_mem (l : List String) (x : String) :
    x ∈ jsSetList l ↔ x ∈ l := by
  unfold jsSetList
  rw [jsSetList_mem_aux]
  simp

/-- C9: for a detected entity whose canonical form matches known entities:
if a same-type known entity exists (the most recently seen one is chosen),
`findMatches` reports `exact` when at least one co-occurring entity from that
entity's most recent prior document (largest document ID) also appears by
canonical form in the current detection set, and `likely` when there is no
such co-entity overlap; if only known entities of a different type share the
canonical form, it reports `possible`.  (Reported only when the entity has a
prior occurrence whose document still exists — spec §7(e) treats a dangling
reference as "no match".) -/
theorem findMatches_confidence
    (detected : List Detected) (g : MemGraph) (d : Detected)
    (hd : d ∈ detected)
    (hnodup : (detected.map (·.text)).Nodup)
    (k0 : KnownEntity) (ks : List KnownEntity)
    (hknown : findByCanonical g (canonicalize d.text) = k0 :: ks) :
    (∀ b, bestSameType (k0 :: ks) d.type = some b →
      ∀ lo, lastOccurrence (getOccurrences g b.id) = some lo →
      ∀ pd, getDocument g lo.documentId = some pd →
      ∃ m, mapGet (findMatches detected g) d.text = some m ∧
        m.knownEntity = b ∧ m.previousAlias = lo.«alias» ∧ m.previousDocument = pd ∧
        ((∃ o ∈ getDocumentOccurrences g lo.documentId, o.entityId ≠ b.id ∧
            canonicalize o.originalText ∈ detected.map (fun e => canonicalize e.text)) →
          m.matchConfidence = MatchConfidence.exact) ∧
        (¬ (∃ o ∈ getDocumentOccurrences g lo.documentId, o.entityId ≠ b.id ∧
            canonicalize o.originalText ∈ detected.map (fun e => canonicalize e.text)) →
          m.matchConfidence = MatchConfidence.likely)) ∧
    (bestSameType (k0 :: ks) d.type = none →
      ∀ lo, lastOccurrence (getOccurrences g k0.id) = some lo →
      ∀ pd, getDocument g lo.documentId = some pd →
      ∃ m, mapGet (findMatches detected g) d.text = some m ∧
        m.knownEntity = k0 ∧ m.matchConfidence = MatchConfidence.possible) := by
  have hget := findMatches_get detected g d hd hnodup
  constructor
  · intro b hb lo hlo pd hpd
    rw [hget]
    simp only [processCandidate, hknown, hb, hlo, hpd]
    have hbmem := bestSameType_mem _ _ _ hb
    have hbc : b.canonical = canonicalize d.text := by
      have h1 := findByCanonical_canonical g (canonicalize d.text) b (hknown ▸ hbmem.1)
      rw [h1, jsToUpper_canonicalize]
    have hiff : (1 ≤ (List.filter
        (fun t => (jsSetList (List.map (fun e => canonicalize e.text) detected)).contains
          (canonicalize t))
        (List.map (fun x => x.originalText)
          (List.filter (fun o => !o.entityId == b.id)
            (getDocumentOccurrences g lo.documentId)))).length) ↔
        (∃ o ∈ getDocumentOccurrences g lo.documentId, o.entityId ≠ b.id ∧
          canonicalize o.originalText ∈ List.map (fun e => canonicalize e.text) detected) := by
      constructor
      · intro hlen
        obtain ⟨x, hx⟩ := List.exists_mem_of_length_pos hlen
        obtain ⟨hx1, hx2⟩ := List.mem_filter.mp hx
        obtain ⟨o, ho1, ho2⟩ := List.mem_map.mp hx1
        obtain ⟨ho3, ho4⟩ := List.mem_filter.mp ho1
        refine ⟨o, ho3, by simpa using ho4, ?_⟩
        rw [ho2]
        rw [← jsSetList_mem]
        simpa using hx2
      · rintro ⟨o, ho, hne, hmm⟩
        apply List.length_pos_of_mem (a := o.originalText)
        apply List.mem_filter.mpr
        refine ⟨List.mem_map.mpr ⟨o, List.mem_filter.mpr ⟨ho, by simpa using hne⟩, rfl⟩, ?_⟩
        simpa [jsSetList_mem] using hmm
    rw [if_neg (by simp : ¬ (false = true))]
    by_cases hp : (∃ o ∈ getDocumentOccurrences g lo.documentId, o.entityId ≠ b.id ∧
        canonicalize o.originalText ∈ List.map (fun e => canonicalize e.text) detected)
    · rw [if_pos ⟨hbc, hiff.mpr hp⟩]
      exact ⟨_, rfl, rfl, rfl, rfl, fun _ => rfl, fun hnp => absurd hp hnp⟩
    · have hnl : ¬ (1 ≤ (List.filter
          (fun t => (jsSetList (List.map (fun e => canonicalize e.text) detected)).contains
            (canonicalize t))
          (List.map (fun x => x.originalText)
            (List.filter (fun o => !o.entityId == b.id)
              (getDocumentOccurrences g lo.documentId)))).length) :=
        fun hl => hp (hiff.mp hl)
      rw [if_neg (fun hand => hnl hand.2), if_pos hbc]
      exact ⟨_, rfl, rfl, rfl, rfl, fun hpp => absurd hpp hp, fun _ => rfl⟩
  · intro hb lo hlo pd hpd
    rw [hget]
    simp only [processCandidate, hknown, hb, hlo, hpd]
    rw [if_true]
    exact ⟨_, rfl, rfl, rfl⟩

/-- Concrete graph for the C9 witness. -/
def entW : KnownEntity :=
  { id := "e1", canonical := "DUPONT", type := .person, firstSeen := "t1",
    lastSeen := "t2", documentCount := 1 }

def occW1 : EntityOccurrence :=
  { entityId := "e1", documentId := "d1", originalText := "Dupont",
    «alias» := "Nerval", confirmed := true }

def occW2 : EntityOccurrence :=
  { entityId := "e2", documentId := "d1", originalText := "Lyon",
    «alias» := "Brest", confirmed := true }

def docW : DocumentRecord :=
  { id := "d1", label := "L", processedAt := "t2", entityCount := 2,
    fingerprint := "fp" }

def gW : MemGraph :=
  { entities := [("e1", entW)], occurrences := [occW1, occW2],
    documents := [("d1", docW)] }

def detectedW : List Detected := [⟨"Dupont", .person⟩, ⟨"Lyon", .city⟩]

/-- Witness for C9: "Dupont" reappears together with co-entity "Lyon", so the
match is reported with confidence `exact`. -/
theorem findMatches_confidence_witness :
    ∃ m, mapGet (findMatches detectedW gW) "Dupont" = some m ∧
      m.matchConfidence = MatchConfidence.exact := by
  have h := ((findMatches_confidence detectedW gW ⟨"Dupont", .person⟩ (by decide)
    (by decide) entW [] (by decide)).1 entW (by decide) occW1 (by decide)
    docW (by decide))
  obtain ⟨m, hm1, _, _, _, hex, _⟩ := h
  exact ⟨m, hm1, hex (by decide)⟩

/-! ## Touchstone classification client (`touchstone-client.ts`)

The current client (per-batch splitting with the one-shot Connect→REST
fallback).  JS exceptions are modelled with `Except Unit`:

* the transport (`fetchPort.post`) is an arbitrary function of the call
  sequence number, URL and body that either throws or returns any status
  and body;
* `JSON.parse` plus the response-shape field accesses are the oracle
  `parse`, `none` modelling a throw on a malformed body;
* the store's `getCachedClassification` may throw (`cacheGet`); cache
  *writes* are recorded in a log (their failures are swallowed by the
  source's `try`/un-awaited promise and cannot change the result).
-/

inductive TokenKind where
  | word | number | punctuation | whitespace | pattern
deriving Repr, DecidableEq

inductive PatternType where
  | email | phone | iban | ssn_fr | url
deriving Repr, DecidableEq

/-- A tokenizer token (`types.ts`). -/
structure Token where
  text : String
  start : Nat
  stop : Nat
  kind : TokenKind
  patternType : Option PatternType
deriving Repr, DecidableEq

inductive LocalType where
  | person_candidate | company_candidate | address_fragment
  | email | phone | iban | ssn | url
deriving Repr, DecidableEq

inductive GroupConfidence where
  | certain | probable | candidate
deriving Repr, DecidableEq

/-- A local-detector group (`types.ts`). -/
structure DetectedGroup where
  tokens : List Token
  text : String
  localType : Option LocalType
  confidence : GroupConfidence
  skipTouchstone : Bool
deriving Repr, DecidableEq

/-- A Touchstone classification record; `metadata` is modelled as a string
map. -/
structure TouchstoneResult where
  dict : String
  «match» : Bool
  type : String
  jurisdiction : String
  confidence : String
  metadata : List (String × String)
deriving Repr, DecidableEq

/-- The (fully merged) Touchstone configuration `{...DEFAULT_CONFIG, ...config}`. -/
structure TouchstoneConfig where
  baseUrl : String
  timeout : Nat
  maxBatchSize : Nat
  jurisdictions : Option (List String)
deriving Repr, DecidableEq

/-- A transport response. -/
structure Resp where
  status : Int
  body : String
deriving Repr, DecidableEq

/-- `fetchPort.post` as a function of the call sequence number, URL and
body; `Except.error` models a thrown exception (network failure, timeout). -/
def Transport : Type := Nat → String → String → Except Unit Resp

/-- One value of `raw.classifications[term]`:
`TouchstoneResult[] | { results?: TouchstoneResult[] }`. -/
inductive TermValue where
  | arr (results : List TouchstoneResult)
  | obj (results : Option (List TouchstoneResult))
deriving Repr, DecidableEq

/-- `Array.isArray(termValue) ? termValue : (termValue.results ?? [])`. -/
def termValueResults : TermValue → List TouchstoneResult
  | .arr rs => rs
  | .obj (some rs) => rs
  | .obj none => []

/-- `JSON.parse(body).classifications` with `Object.entries`; `none` models
a throw on malformed JSON or a missing/non-object `classifications`. -/
def JsonParser : Type := String → Option (List (String × TermValue))

def jsonStr (s : String) : String := "\"" ++ s ++ "\""

def jsonArr (l : List String) : String :=
  "[" ++ String.intercalate "," (l.map jsonStr) ++ "]"

/-- `JSON.stringify({ terms, jurisdictions })`. -/
def stringifyBatchBody (terms jurisdictions : List String) : String :=
  "\x7b\"terms\":" ++ jsonArr terms ++ ",\"jurisdictions\":" ++
    jsonArr jurisdictions ++ "\x7d"

/-- A logged POST request (the structured content of the body). -/
structure PostReq where
  url : String
  terms : List String
  jurisdictions : List String
deriving Repr, DecidableEq

/-- Client state threaded through the batch loop. -/
structure CBState where
  useRest : Bool
  callIdx : Nat
  results : List (String × List TouchstoneResult)
  writes : List (String × List TouchstoneResult)
  posts : List PostReq
deriving Repr, DecidableEq

/-- Issue one POST: the request is logged (it was sent) whether or not the
transport throws. -/
def postCall (tr : Transport) (st : CBState) (url : String)
    (terms jurisdictions : List String) : Except Unit Resp × CBState :=
  let req : PostReq := { url := url, terms := terms, jurisdictions := jurisdictions }
  (tr st.callIdx url (stringifyBatchBody terms jurisdictions),
   { st with callIdx := st.callIdx + 1, posts := st.posts ++ [req] })

/-- `parseAndStoreResults(body, realSet, results, store)`: parse, then for
each term in `realSet` store the results in the output map and the cache
write log.  A parse throw happens before any write. -/
def parseAndStoreResults (parse : JsonParser) (body : String)
    (realSet : List String) (st : CBState) : Except Unit CBState :=
  match parse body with
  | none => .error ()
  | some entries => .ok (entries.foldl (fun st p =>
      if realSet.contains p.1 then
        { st with results := mapSet st.results p.1 (termValueResults p.2),
                  writes := st.writes ++ [(p.1, termValueResults p.2)] }
      else st) st)

/-- `classifyBatchRest`: REST fallback; its own `try`/`catch` swallows both
transport and parse throws, and a non-200 status just returns. -/
def classifyBatchRest (tr : Transport) (parse : JsonParser)
    (cfg : TouchstoneConfig) (mixed realSet : List String) (st : CBState) :
    CBState :=
  let (res, st1) := postCall tr st (cfg.baseUrl ++ "/v1/classify/batch") mixed
    (cfg.jurisdictions.getD [])
  match res with
  | .error _ => st1
  | .ok resp =>
    if resp.status ≠ 200 then st1
    else
      match parseAndStoreResults parse resp.body realSet st1 with
      | .error _ => st1
      | .ok st2 => st2

/-- The `for (const batchTerms of batches)` loop.  Per batch: mix decoys,
POST to the Connect endpoint (unless already in REST mode); 404 switches to
the REST fallback; any other non-200 status returns early with the results
so far; a transport throw is caught and the loop continues; a parse failure
on the 200 path is dropped (the source does not await
`parseAndStoreResults` there) and the loop continues. -/
def processBatches (tr : Transport) (parse : JsonParser)
    (cfg : TouchstoneConfig) (decoyRatio : ℚ) (dsrc : Nat → Nat → String)
    (shuf : Nat → Nat → Nat) :
    List (List String) → Nat → CBState → CBState
  | [], _, st => st
  | batchTerms :: rest, bIdx, st =>
    let mr := mixDecoys batchTerms decoyRatio cfg.maxBatchSize (dsrc bIdx) (shuf bIdx)
    if st.useRest then
      processBatches tr parse cfg decoyRatio dsrc shuf rest (bIdx + 1)
        (classifyBatchRest tr parse cfg mr.mixed mr.realSet st)
    else
      let (res, st1) := postCall tr st
        (cfg.baseUrl ++ "/touchstone.v1.ClassificationService/ClassifyBatch")
        mr.mixed (cfg.jurisdictions.getD [])
      match res with
      | .error _ => processBatches tr parse cfg decoyRatio dsrc shuf rest (bIdx + 1) st1
      | .ok resp =>
        if resp.status = 404 then
          processBatches tr parse cfg decoyRatio dsrc shuf rest (bIdx + 1)
            (classifyBatchRest tr parse cfg mr.mixed mr.realSet
              { st1 with useRest := true })
        else if resp.status ≠ 200 then st1
        else
          processBatches tr parse cfg decoyRatio dsrc shuf rest (bIdx + 1)
            (match parseAndStoreResults parse resp.body mr.realSet st1 with
             | .error _ => st1
             | .ok st2 => st2)

/-- Inner token loop of the cache-collection phase. -/
def collectTokens (cacheGet : String → Except Unit (Option (List TouchstoneResult))) :
    List Token → List (String × List TouchstoneResult) → List String →
    Except Unit (List (String × List TouchstoneResult) × List String)
  | [], res, terms => .ok (res, terms)
  | token :: rest, res, terms =>
    if token.kind = .word ∧ ¬ (mapHas res token.text = true) then
      match cacheGet token.text with
      | .error e => .error e
      | .ok (some c) => collectTokens cacheGet rest (mapSet res token.text c) terms
      | .ok none => collectTokens cacheGet rest res (terms ++ [token.text])
    else collectTokens cacheGet rest res terms

/-- Cache-collection phase over the groups (`skipTouchstone` filter, whole
group text first, then individual word tokens). -/
def collectTerms (cacheGet : String → Except Unit (Option (List TouchstoneResult))) :
    List DetectedGroup → List (String × List TouchstoneResult) → List String →
    Except Unit (List (String × List TouchstoneResult) × List String)
  | [], res, terms => .ok (res, terms)
  | group :: rest, res, terms =>
    if group.skipTouchstone then collectTerms cacheGet rest res terms
    else
      match cacheGet group.text with
      | .error e => .error e
      | .ok (some cached) =>
        collectTerms cacheGet rest (mapSet res group.text cached) terms
      | .ok none =>
        match collectTokens cacheGet group.tokens res terms with
        | .error e => .error e
        | .ok (res, terms) => collectTerms cacheGet rest res terms

/-- Size-`k` chunking of the `for (i = 0; i < len; i += maxReal)` slicing,
written structurally (`cur` is the reversed chunk under construction,
`room` the remaining capacity). -/
def chunkGo {α : Type} (k : Nat) : List α → List α → Nat → List (List α)
  | [], cur, _ => if cur.isEmpty then [] else [cur.reverse]
  | x :: xs, cur, 0 => cur.reverse :: chunkGo k xs [x] (k - 1)
  | x :: xs, cur, n + 1 => chunkGo k xs (x :: cur) n

/-- `splitIntoBatches(terms, maxBatch, decoyRatio)`:
`maxReal = max(1, floor(maxBatch / (1 + decoyRatio)))`, then slices of
`maxReal` terms. -/
def splitIntoBatches (terms : List String) (maxBatch : Nat) (decoyRatio : ℚ) :
    List (List String) :=
  let maxReal : Int := max 1 (Int.floor ((maxBatch : ℚ) / (1 + decoyRatio)))
  chunkGo maxReal.toNat terms [] maxReal.toNat

/-- The observable outcome of `classifyBatch`: the result map, the cache
writes and every POSTed request. -/
structure CBResult where
  results : List (String × List TouchstoneResult)
  writes : List (String × List TouchstoneResult)
  posts : List PostReq
deriving Repr, DecidableEq

/-- `classifyBatch(groups, fetchPort, store, config, decoyRatio)`.  The only
operations whose exceptions are not caught by the function's `try`/`catch`
blocks are the store's cache reads in the collection phase. -/
def classifyBatch (groups : List DetectedGroup) (tr : Transport)
    (cacheGet : String → Except Unit (Option (List TouchstoneResult)))
    (cfg : TouchstoneConfig) (decoyRatio : ℚ) (parse : JsonParser)
    (dsrc : Nat → Nat → String) (shuf : Nat → Nat → Nat) :
    Except Unit CBResult :=
  match collectTerms cacheGet groups [] [] with
  | .error e => .error e
  | .ok (results0, termsToClassify) =>
    if termsToClassify.isEmpty then
      .ok { results := results0, writes := [], posts := [] }
    else
      let uniqueTerms := jsSetList termsToClassify
      let batches := splitIntoBatches uniqueTerms cfg.maxBatchSize decoyRatio
      let st := processBatches tr parse cfg decoyRatio dsrc shuf batches 0
        { useRest := false, callIdx := 0, results := results0, writes := [],
          posts := [] }
      .ok { results := st.results, writes := st.writes, posts := st.posts }

/-! ### Classification client lemmas -/

theorem collectTokens_ok
    (cacheGet : String → Except Unit (Option (List TouchstoneResult)))
    (hstore : ∀ t, (cacheGet t).isOk = true) :
    ∀ (toks : List Token) (res : List (String × List TouchstoneResult))
      (terms : List String), ∃ v, collectTokens cacheGet toks res terms = .ok v := by
  intro toks
  induction toks with
  | nil =>
    intro res terms
    exact ⟨(res, terms), rfl⟩
  | cons token rest ih =>
    intro res terms
    unfold collectTokens
    by_cases hc : token.kind = TokenKind.word ∧ ¬ (mapHas res token.text = true)
    · rw [if_pos hc]
      cases hget : cacheGet token.text with
      | error e =>
        have := hstore token.text
        rw [hget] at this
        cases this
      | ok v =>
        cases v with
        | some c => exact ih _ _
        | none => exact ih _ _
    · rw [if_neg hc]
      exact ih _ _

theorem collectTerms_ok
    (cacheGet : String → Except Unit (Option (List TouchstoneResult)))
    (hstore : ∀ t, (cacheGet t).isOk = true) :
    ∀ (groups : List DetectedGroup) (res : List (String × List TouchstoneResult))
      (terms : List String), ∃ v, collectTerms cacheGet groups res terms = .ok v := by
  intro groups
  induction groups with
  | nil =>
    intro res terms
    exact ⟨(res, terms), rfl⟩
  | cons group rest ih =>
    intro res terms
    unfold collectTerms
    by_cases hs : group.skipTouchstone = true
    · rw [if_pos hs]
      exact ih _ _
    · rw [if_neg hs]
      cases hget : cacheGet group.text with
      | error e =>
        have := hstore group.text
        rw [hget] at this
        cases this
      | ok v =>
        cases v with
        | some cached => exact ih _ _
        | none =>
          obtain ⟨w, hw⟩ := collectTokens_ok cacheGet hstore group.tokens res terms
          rw [hw]
          exact ih _ _

theorem processBatches_error_transport (tr : Transport) (parse : JsonParser)
    (cfg : TouchstoneConfig) (decoyRatio : ℚ) (dsrc : Nat → Nat → String)
    (shuf : Nat → Nat → Nat) (herr : ∀ i u b, tr i u b = .error ()) :
    ∀ (batches : List (List String)) (bIdx : Nat) (st : CBState),
      (processBatches tr parse cfg decoyRatio dsrc shuf batches bIdx st).results =
        st.results := by
  intro batches
  induction batches with
  | nil =>
    intro bIdx st
    rfl
  | cons batchTerms rest ih =>
    intro bIdx st
    unfold processBatches
    by_cases hu : st.useRest = true
    · rw [if_pos hu]
      rw [ih]
      unfold classifyBatchRest postCall
      rw [herr]
    · rw [if_neg hu]
      simp only [postCall, herr]
      rw [ih]

/-- C2: for every group list, configuration, decoy/shuffle randomness, JSON
parser behaviour, and every transport behaviour — throwing, or returning any
status code with any (possibly malformed) body — `classifyBatch` returns
normally with a (possibly empty or partial) result map, provided the store's
own cache reads succeed; moreover if the transport throws on every call the
returned map is exactly the one assembled from local cache hits (the
pipeline falls back to local-only signals instead of failing). -/
theorem classifyBatch_never_throws (groups : List DetectedGroup) (tr : Transport)
    (cacheGet : String → Except Unit (Option (List TouchstoneResult)))
    (cfg : TouchstoneConfig) (decoyRatio : ℚ) (parse : JsonParser)
    (dsrc : Nat → Nat → String) (shuf : Nat → Nat → Nat)
    (hstore : ∀ t, (cacheGet t).isOk = true) :
    (∃ r, classifyBatch groups tr cacheGet cfg decoyRatio parse dsrc shuf = .ok r) ∧
    ((∀ i u b, tr i u b = .error ()) →
      ∀ r, classifyBatch groups tr cacheGet cfg decoyRatio parse dsrc shuf = .ok r →
      ∃ rt, collectTerms cacheGet groups [] [] = .ok rt ∧ r.results = rt.1) := by
  obtain ⟨v, hv⟩ := collectTerms_ok cacheGet hstore groups [] []
  obtain ⟨res0, terms0⟩ := v
  constructor
  · unfold classifyBatch
    simp only [hv]
    by_cases he : terms0.isEmpty = true
    · exact ⟨_, by rw [if_pos he]⟩
    · exact ⟨_, by rw [if_neg he]⟩
  · intro herr r hr
    refine ⟨(res0, terms0), hv, ?_⟩
    unfold classifyBatch at hr
    simp only [hv] at hr
    by_cases he : terms0.isEmpty = true
    · rw [if_pos he] at hr
      cases hr
      rfl
    · rw [if_neg he] at hr
      cases hr
      exact (processBatches_error_transport tr parse cfg decoyRatio dsrc shuf
        herr _ 0 _)

/-- Concrete inputs for the classification-client witnesses. -/
def tokenW : Token :=
  { text := "Dupont", start := 0, stop := 6, kind := .word, patternType := none }

def groupW : DetectedGroup :=
  { tokens := [tokenW], text := "Dupont", localType := none,
    confidence := .candidate, skipTouchstone := false }

def cfgW : TouchstoneConfig :=
  { baseUrl := "http://localhost:8420", timeout := 5000, maxBatchSize := 100,
    jurisdictions := none }

/-- Witness for C2: a transport that always throws still yields a normal
return. -/
theorem classifyBatch_never_throws_witness :
    ∃ r, classifyBatch [groupW] (fun _ _ _ => .error ()) (fun _ => .ok none)
      cfgW (7 / 20) (fun _ => none) (fun _ _ => "Decoy") (fun _ _ => 0) =
      .ok r :=
  (classifyBatch_never_throws [groupW] (fun _ _ _ => .error ())
    (fun _ => .ok none) cfgW (7 / 20) (fun _ => none) (fun _ _ => "Decoy")
    (fun _ _ => 0) (fun _ => rfl)).1

theorem chunkGo_mem {α : Type} (k : Nat) :
    ∀ (l cur : List α) (n : Nat) (c : List α), c ∈ chunkGo k l cur n →
      ∀ x ∈ c, x ∈ cur ∨ x ∈ l := by
  intro l
  induction l with
  | nil =>
    intro cur n c hc x hx
    unfold chunkGo at hc
    by_cases he : cur.isEmpty = true
    · rw [if_pos he] at hc
      cases hc
    · rw [if_neg he] at hc
      have hcc : c = cur.reverse := List.mem_singleton.mp hc
      exact Or.inl (List.mem_reverse.mp (hcc ▸ hx))
  | cons x0 xs ih =>
    intro cur n c hc x hx
    match n with
    | 0 =>
      unfold chunkGo at hc
      rcases List.mem_cons.mp hc with h | h
      · exact Or.inl (List.mem_reverse.mp (h ▸ hx))
      · rcases ih [x0] (k - 1) c h x hx with h' | h'
        · have : x = x0 := List.mem_singleton.mp h'
          exact Or.inr (this ▸ List.mem_cons_self _ _)
        · exact Or.inr (List.mem_cons_of_mem _ h')
    | n + 1 =>
      unfold chunkGo at hc
      rcases ih (x0 :: cur) n c hc x hx with h' | h'
      · rcases List.mem_cons.mp h' with h'' | h''
        · exact Or.inr (h'' ▸ List.mem_cons_self _ _)
        · exact Or.inl h''
      · exact Or.inr (List.mem_cons_of_mem _ h')

theorem mixDecoys_mixed_source (terms : List String) (ratio : ℚ) (mb : Nat)
    (dsrc : Nat → String) (shuf : Nat → Nat) (x : String)
    (hx : x ∈ (mixDecoys terms ratio mb dsrc shuf).mixed) :
    x ∈ terms ∨ ∃ k, dsrc k = x := by
  have hx' : x ∈ terms ++ (List.range (min (Int.ceil ((terms.length : ℚ) * ratio))
      (max 0 ((mb : Int) - terms.length))).toNat).map dsrc :=
    (fisherYates_mem _ _ x).mp hx
  rcases List.mem_append.mp hx' with h | h
  · exact Or.inl h
  · obtain ⟨k, _, hk⟩ := List.mem_map.mp h
    exact Or.inr ⟨k, hk⟩

theorem collectTokens_terms_source
    (cacheGet : String → Except Unit (Option (List TouchstoneResult))) :
    ∀ (toks : List Token) (res : List (String × List TouchstoneResult))
      (terms0 : List String) v,
      collectTokens cacheGet toks res terms0 = .ok v →
      ∀ t ∈ v.2, t ∈ terms0 ∨
        ∃ tok ∈ toks, tok.kind = TokenKind.word ∧ tok.text = t := by
  intro toks
  induction toks with
  | nil =>
    intro res terms0 v hv t ht
    cases hv
    exact Or.inl ht
  | cons token rest ih =>
    intro res terms0 v hv t ht
    unfold collectTokens at hv
    by_cases hc : token.kind = TokenKind.word ∧ ¬ (mapHas res token.text = true)
    · rw [if_pos hc] at hv
      cases hget : cacheGet token.text with
      | error e =>
        rw [hget] at hv
        cases hv
      | ok o =>
        rw [hget] at hv
        cases o with
        | some c =>
          rcases ih _ _ _ hv t ht with h | ⟨tok, htok, hw, hx⟩
          · exact Or.inl h
          · exact Or.inr ⟨tok, List.mem_cons_of_mem _ htok, hw, hx⟩
        | none =>
          rcases ih _ _ _ hv t ht with h | ⟨tok, htok, hw, hx⟩
          · rcases List.mem_append.mp h with h' | h'
            · exact Or.inl h'
            · have : t = token.text := List.mem_singleton.mp h'
              exact Or.inr ⟨token, List.mem_cons_self _ _, hc.1, this.symm⟩
          · exact Or.inr ⟨tok, List.mem_cons_of_mem _ htok, hw, hx⟩
    · rw [if_neg hc] at hv
      rcases ih _ _ _ hv t ht with h | ⟨tok, htok, hw, hx⟩
      · exact Or.inl h
      · exact Or.inr ⟨tok, List.mem_cons_of_mem _ htok, hw, hx⟩

theorem collectTerms_terms_source
    (cacheGet : String → Except Unit (Option (List TouchstoneResult))) :
    ∀ (groups : List DetectedGroup) (res : List (String × List TouchstoneResult))
      (terms0 : List String) v,
      collectTerms cacheGet groups res terms0 = .ok v →
      ∀ t ∈ v.2, t ∈ terms0 ∨
        ∃ gr ∈ groups, gr.skipTouchstone = false ∧
          ∃ tok ∈ gr.tokens, tok.kind = TokenKind.word ∧ tok.text = t := by
  intro groups
  induction groups with
  | nil =>
    intro res terms0 v hv t ht
    cases hv
    exact Or.inl ht
  | cons group rest ih =>
    intro res terms0 v hv t ht
    unfold collectTerms at hv
    by_cases hs : group.skipTouchstone = true
    · rw [if_pos hs] at hv
      rcases ih _ _ _ hv t ht with h | ⟨gr, hgr, hsk, hrest⟩
      · exact Or.inl h
      · exact Or.inr ⟨gr, List.mem_cons_of_mem _ hgr, hsk, hrest⟩
    · rw [if_neg hs] at hv
      cases hget : cacheGet group.text with
      | error e =>
        rw [hget] at hv
        cases hv
      | ok o =>
        rw [hget] at hv
        cases o with
        | some cached =>
          rcases ih _ _ _ hv t ht with h | ⟨gr, hgr, hsk, hrest⟩
          · exact Or.inl h
          · exact Or.inr ⟨gr, List.mem_cons_of_mem _ hgr, hsk, hrest⟩
        | none =>
          cases htk : collectTokens cacheGet group.tokens res terms0 with
          | error e =>
            rw [htk] at hv
            cases hv
          | ok w =>
            rw [htk] at hv
            rcases ih _ _ _ hv t ht with h | ⟨gr, hgr, hsk, hrest⟩
            · rcases collectTokens_terms_source cacheGet _ _ _ _ htk t h with
                h' | ⟨tok, htok, hw, hx⟩
              · exact Or.inl h'
              · exact Or.inr ⟨group, List.mem_cons_self _ _,
                  Bool.not_eq_true _ ▸ (by simpa using hs), tok, htok, hw, hx⟩
            · exact Or.inr ⟨gr, List.mem_cons_of_mem _ hgr, hsk, hrest⟩

def restReq (cfg : TouchstoneConfig) (mixed : List String) : PostReq :=
  { url := cfg.baseUrl ++ "/v1/classify/batch", terms := mixed,
    jurisdictions := cfg.jurisdictions.getD [] }

def connectReq (cfg : TouchstoneConfig) (mixed : List String) : PostReq :=
  { url := cfg.baseUrl ++ "/touchstone.v1.ClassificationService/ClassifyBatch",
    terms := mixed, jurisdictions := cfg.jurisdictions.getD [] }

theorem parseAndStore_posts (parse : JsonParser) (body : String)
    (realSet : List String) (st st' : CBState)
    (h : parseAndStoreResults parse body realSet st = .ok st') :
    st'.posts = st.posts := by
  unfold parseAndStoreResults at h
  cases hp : parse body with
  | none =>
    rw [hp] at h
    cases h
  | some entries =>
    rw [hp] at h
    cases h
    clear hp
    induction entries generalizing st with
    | nil => rfl
    | cons p rest ih =>
      rw [List.foldl_cons, ih]
      by_cases hr : realSet.contains p.1 = true
      · rw [if_pos hr]
      · rw [if_neg hr]

theorem classifyBatchRest_posts (tr : Transport) (parse : JsonParser)
    (cfg : TouchstoneConfig) (mixed realSet : List String) (st : CBState) :
    (classifyBatchRest tr parse cfg mixed realSet st).posts =
      st.posts ++ [restReq cfg mixed] := by
  unfold classifyBatchRest postCall restReq
  cases htr : tr st.callIdx (cfg.baseUrl ++ "/v1/classify/batch")
      (stringifyBatchBody mixed (cfg.jurisdictions.getD [])) with
  | error e => rfl
  | ok resp =>
    dsimp only
    by_cases hs : resp.status ≠ 200
    · rw [if_pos hs]
    · rw [if_neg hs]
      split
      · rfl
      · next st2 hpr =>
          exact parseAndStore_posts parse resp.body realSet _ st2 hpr

/-- Soundness invariant of the batch loop: every POSTed term is either a
generated decoy or satisfies the provenance predicate `W` holding of all
batch terms. -/
theorem processBatches_posts_sound (tr : Transport) (parse : JsonParser)
    (cfg : TouchstoneConfig) (ratio : ℚ) (dsrc : Nat → Nat → String)
    (shuf : Nat → Nat → Nat) (W : String → Prop) :
    ∀ (batches : List (List String)) (bIdx : Nat) (st : CBState),
      (∀ req ∈ st.posts, ∀ term ∈ req.terms, (∃ b k, dsrc b k = term) ∨ W term) →
      (∀ batch ∈ batches, ∀ t ∈ batch, W t) →
      ∀ req ∈ (processBatches tr parse cfg ratio dsrc shuf batches bIdx st).posts,
        ∀ term ∈ req.terms, (∃ b k, dsrc b k = term) ∨ W term := by
  intro batches
  induction batches with
  | nil =>
    intro bIdx st hst _ req hreq
    exact hst req hreq
  | cons batchTerms rest ih =>
    intro bIdx st hst hb req hreq term hterm
    have hmixed : ∀ t ∈ (mixDecoys batchTerms ratio cfg.maxBatchSize
        (dsrc bIdx) (shuf bIdx)).mixed, (∃ b k, dsrc b k = t) ∨ W t := by
      intro t ht
      rcases mixDecoys_mixed_source _ _ _ _ _ t ht with h | ⟨k, hk⟩
      · exact Or.inr (hb batchTerms (List.mem_cons_self _ _) t h)
      · exact Or.inl ⟨bIdx, k, hk⟩
    have hbrest : ∀ batch ∈ rest, ∀ t ∈ batch, W t :=
      fun b hb' => hb b (List.mem_cons_of_mem _ hb')
    unfold processBatches at hreq
    by_cases hu : st.useRest = true
    · rw [if_pos hu] at hreq
      refine ih (bIdx + 1) _ ?_ hbrest req hreq term hterm
      rw [classifyBatchRest_posts]
      intro req' hreq' t' ht'
      rcases List.mem_append.mp hreq' with h | h
      · exact hst req' h t' ht'
      · have hr : req' = restReq cfg
            (mixDecoys batchTerms ratio cfg.maxBatchSize (dsrc bIdx) (shuf bIdx)).mixed :=
          List.mem_singleton.mp h
        exact hmixed t' (by rw [hr] at ht'; exact ht')
    · rw [if_neg hu] at hreq
      dsimp only [postCall] at hreq
      cases htr : tr st.callIdx
          (cfg.baseUrl ++ "/touchstone.v1.ClassificationService/ClassifyBatch")
          (stringifyBatchBody (mixDecoys batchTerms ratio cfg.maxBatchSize
            (dsrc bIdx) (shuf bIdx)).mixed (cfg.jurisdictions.getD [])) with
      | error e =>
        rw [htr] at hreq
        dsimp only at hreq
        refine ih (bIdx + 1) _ ?_ hbrest req hreq term hterm
        intro req' hreq' t' ht'
        rcases List.mem_append.mp hreq' with h | h
        · exact hst req' h t' ht'
        · have hr : req' = connectReq cfg (mixDecoys batchTerms ratio
              cfg.maxBatchSize (dsrc bIdx) (shuf bIdx)).mixed :=
            List.mem_singleton.mp h
          exact hmixed t' (by rw [hr] at ht'; exact ht')
      | ok resp =>
        rw [htr] at hreq
        dsimp only at hreq
        have hstep : ∀ req' ∈ st.posts ++ [connectReq cfg (mixDecoys batchTerms
            ratio cfg.maxBatchSize (dsrc bIdx) (shuf bIdx)).mixed],
            ∀ t' ∈ req'.terms, (∃ b k, dsrc b k = t') ∨ W t' := by
          intro req' hreq' t' ht'
          rcases List.mem_append.mp hreq' with h | h
          · exact hst req' h t' ht'
          · have hr := List.mem_singleton.mp h
            exact hmixed t' (by rw [hr] at ht'; exact ht')
        by_cases h404 : resp.status = 404
        · rw [if_pos h404] at hreq
          refine ih (bIdx + 1) _ ?_ hbrest req hreq term hterm
          rw [classifyBatchRest_posts]
          intro req' hreq' t' ht'
          rcases List.mem_append.mp hreq' with h | h
          · exact hstep req' h t' ht'
          · have hr : req' = restReq cfg
                (mixDecoys batchTerms ratio cfg.maxBatchSize (dsrc bIdx) (shuf bIdx)).mixed :=
              List.mem_singleton.mp h
            exact hmixed t' (by rw [hr] at ht'; exact ht')
        · rw [if_neg h404] at hreq
          by_cases h200 : resp.status ≠ 200
          · rw [if_pos h200] at hreq
            exact hstep req hreq term hterm
          · rw [if_neg h200] at hreq
            refine ih (bIdx + 1) _ ?_ hbrest req hreq term hterm
            split
            · next st2 hpr =>
                intro req' hreq' t' ht'
                exact hstep req' hreq' t' ht'
            · next st2 hpr =>
                intro req' hreq' t' ht'
                rw [parseAndStore_posts parse resp.body _ _ st2 hpr] at hreq'
                exact hstep req' hreq' t' ht'

/-- C3: for every call to `classifyBatch` and every transport behaviour,
every real (non-decoy) term contained in any request POSTed to the transport
is the text of a word token of some group with `skipTouchstone = false`;
consequently a string that is neither a decoy draw nor such a word-token
text — in particular the text of a `skipTouchstone = true` group that occurs
nowhere as a word token of a non-skipped group — is never sent to the
remote classifier. -/
theorem classifyBatch_only_word_tokens (groups : List DetectedGroup)
    (tr : Transport)
    (cacheGet : String → Except Unit (Option (List TouchstoneResult)))
    (cfg : TouchstoneConfig) (decoyRatio : ℚ) (parse : JsonParser)
    (dsrc : Nat → Nat → String) (shuf : Nat → Nat → Nat) (r : CBResult)
    (hr : classifyBatch groups tr cacheGet cfg decoyRatio parse dsrc shuf =
      .ok r) :
    (∀ req ∈ r.posts, ∀ term ∈ req.terms,
      (∃ b k, dsrc b k = term) ∨
      ∃ gr ∈ groups, gr.skipTouchstone = false ∧
        ∃ tok ∈ gr.tokens, tok.kind = TokenKind.word ∧ tok.text = term) ∧
    (∀ term : String, (∀ b k, dsrc b k ≠ term) →
      (∀ gr ∈ groups, gr.skipTouchstone = false →
        ∀ tok ∈ gr.tokens, tok.kind = TokenKind.word → tok.text ≠ term) →
      ∀ req ∈ r.posts, term ∉ req.terms) := by
  have hmain : ∀ req ∈ r.posts, ∀ term ∈ req.terms,
      (∃ b k, dsrc b k = term) ∨
      ∃ gr ∈ groups, gr.skipTouchstone = false ∧
        ∃ tok ∈ gr.tokens, tok.kind = TokenKind.word ∧ tok.text = term := by
    unfold classifyBatch at hr
    cases hct : collectTerms cacheGet groups [] [] with
    | error e =>
      rw [hct] at hr
      cases hr
    | ok v =>
      rw [hct] at hr
      obtain ⟨results0, termsToClassify⟩ := v
      dsimp only at hr
      by_cases he : termsToClassify.isEmpty = true
      · rw [if_pos he] at hr
        cases hr
        intro req hreq
        cases hreq
      · rw [if_neg he] at hr
        cases hr
        intro req hreq term hterm
        refine processBatches_posts_sound tr parse cfg decoyRatio dsrc shuf
          (fun t => ∃ gr ∈ groups, gr.skipTouchstone = false ∧
            ∃ tok ∈ gr.tokens, tok.kind = TokenKind.word ∧ tok.text = t)
          _ 0 _ ?_ ?_ req hreq term hterm
        · intro req' hreq'
          cases hreq'
        · intro batch hbatch t htb
          rcases chunkGo_mem _ _ _ _ batch hbatch t htb with h | h
          · cases h
          · have h2 : t ∈ termsToClassify := (jsSetList_mem _ _).mp h
            rcases collectTerms_terms_source cacheGet groups [] [] _ hct t h2
              with h3 | h3
            · cases h3
            · exact h3
  refine ⟨hmain, ?_⟩
  intro term hnd hnw req hreq hmem
  rcases hmain req hreq term hmem with ⟨b, k, hk⟩ |
    ⟨gr, hgr, hsk, tok, htok, hw, hx⟩
  · exact hnd b k hk
  · exact hnw gr hgr hsk tok htok hw hx

def emailTokenW : Token :=
  { text := "jean@example.com", start := 0, stop := 16, kind := .word,
    patternType := some .email }

def skipGroupW : DetectedGroup :=
  { tokens := [emailTokenW], text := "jean@example.com",
    localType := some .email, confidence := .certain, skipTouchstone := true }

def rW : CBResult :=
  { results := [], writes := [],
    posts := [connectReq cfgW ["Decoy", "Dupont"]] }

unseal Rat.mul Rat.inv Rat.add in
/-- Witness for C3: with a word-token group and a skipped validated-email
group, the single POSTed request carries only the word token and the decoy;
the skipped group's text is not in it. -/
theorem classifyBatch_only_word_tokens_witness :
    "jean@example.com" ∉ (connectReq cfgW ["Decoy", "Dupont"]).terms :=
  (classifyBatch_only_word_tokens [groupW, skipGroupW] (fun _ _ _ => .error ())
    (fun _ => .ok none) cfgW (7 / 20) (fun _ => none) (fun _ _ => "Decoy")
    (fun _ _ => 0) rW (by rfl)).2 "jean@example.com" (fun b k => by decide)
    (by decide) (connectReq cfgW ["Decoy", "Dupont"]) (by decide)

/-! ## Tokenizer (`tokenizer.ts`)

A backtracking regex engine over a small AST, with explicit fuel so that
all recursion is structural (the kernel can evaluate it).  `reMatch` tries
alternatives in JS order (greedy quantifiers, leftmost match), and every
quantifier in the six `PATTERNS` and in `splitBasic` consumes at least one
character, so sufficient fuel reproduces the JS `RegExp.exec` semantics.
For each concrete input below fuel 300 is ample. -/

inductive RE where
  | cls (p : Char → Bool)
  | eps
  | seq (a b : RE)
  | alt (a b : RE)
  | opt (a : RE)
  | star (a : RE)

def chrRE (c : Char) : RE := .cls (fun d => d = c)

def seqList : List RE → RE
  | [] => .eps
  | [r] => r
  | r :: rs => .seq r (seqList rs)

def strRE (s : String) : RE := seqList (s.toList.map chrRE)

def RE.plus (a : RE) : RE := .seq a (.star a)

def repExact (a : RE) : Nat → RE
  | 0 => .eps
  | 1 => a
  | n + 1 => .seq a (repExact a n)

def optChain (a : RE) : Nat → RE
  | 0 => .eps
  | n + 1 => .opt (.seq a (optChain a n))

def repRange (a : RE) (lo hi : Nat) : RE :=
  .seq (repExact a lo) (optChain a (hi - lo))

def reMatch : Nat → RE → List Char → (List Char → Option (List Char)) →
    Option (List Char)
  | 0, _, _, _ => none
  | _ + 1, .cls _, [], _ => none
  | _ + 1, .cls p, c :: cs, k => if p c then k cs else none
  | _ + 1, .eps, cs, k => k cs
  | fuel + 1, .seq a b, cs, k =>
    reMatch fuel a cs (fun cs2 => reMatch fuel b cs2 k)
  | fuel + 1, .alt a b, cs, k =>
    match reMatch fuel a cs k with
    | some r => some r
    | none => reMatch fuel b cs k
  | fuel + 1, .opt a, cs, k =>
    match reMatch fuel a cs k with
    | some r => some r
    | none => k cs
  | fuel + 1, .star a, cs, k =>
    match reMatch fuel a cs (fun cs2 => reMatch fuel (.star a) cs2 k) with
    | some r => some r
    | none => k cs

def tryMatch (fuel : Nat) (re : RE) (cs : List Char) : Option Nat :=
  match reMatch fuel re cs some with
  | some rest => some (cs.length - rest.length)
  | none => none

def searchGo (fuel : Nat) (re : RE) : List Char → Nat → Option (Nat × Nat)
  | [], pos =>
    match tryMatch fuel re [] with
    | some len => some (pos, len)
    | none => none
  | c :: cs, pos =>
    match tryMatch fuel re (c :: cs) with
    | some len => some (pos, len)
    | none => searchGo fuel re cs (pos + 1)

def execAllGo (fuel : Nat) (re : RE) : Nat → List Char → Nat → List (Nat × Nat)
  | 0, _, _ => []
  | pf + 1, cs, pos =>
    match searchGo fuel re cs pos with
    | none => []
    | some (s, len) =>
      (s, s + len) ::
        execAllGo fuel re pf (cs.drop (s - pos + max len 1)) (s + max len 1)

def execAll (fuel : Nat) (re : RE) (cs : List Char) : List (Nat × Nat) :=
  execAllGo fuel re (cs.length + 1) cs 0

/-! ### Character classes -/

def isJsSpace (c : Char) : Bool :=
  let n := c.toNat
  n = 32 ∨ (9 ≤ n ∧ n ≤ 13) ∨ n = 0xa0 ∨ n = 0x1680 ∨
    (0x2000 ≤ n ∧ n ≤ 0x200a) ∨ n = 0x2028 ∨ n = 0x2029 ∨ n = 0x202f ∨
    n = 0x205f ∨ n = 0x3000 ∨ n = 0xfeff

def isAsciiDigit (c : Char) : Bool :=
  48 ≤ c.toNat ∧ c.toNat ≤ 57

def isAsciiUpper (c : Char) : Bool :=
  65 ≤ c.toNat ∧ c.toNat ≤ 90

def isAsciiAlpha (c : Char) : Bool :=
  (65 ≤ c.toNat ∧ c.toNat ≤ 90) ∨ (97 ≤ c.toNat ∧ c.toNat ≤ 122)

def isWordCharJs (c : Char) : Bool :=
  isAsciiAlpha c ∨ isAsciiDigit c ∨ c.toNat = 95

def isUrlChar (c : Char) : Bool :=
  isWordCharJs c ∨ c.toNat ∈ [45, 46, 95, 126, 58, 47, 63, 35, 91, 93, 64,
    33, 36, 38, 39, 40, 41, 42, 43, 44, 59, 61, 37]

def isEmailLocalChar (c : Char) : Bool :=
  isAsciiAlpha c ∨ isAsciiDigit c ∨ c.toNat ∈ [46, 95, 37, 43, 45]

def isEmailDomainChar (c : Char) : Bool :=
  isAsciiAlpha c ∨ isAsciiDigit c ∨ c.toNat ∈ [46, 45]

def isUpperOrDigit (c : Char) : Bool :=
  isAsciiDigit c ∨ isAsciiUpper c

def isPhoneSep (c : Char) : Bool :=
  isJsSpace c ∨ c.toNat = 46 ∨ c.toNat = 45

def isLatinLetter (c : Char) : Bool :=
  isAsciiAlpha c ∨ (0xc0 ≤ c.toNat ∧ c.toNat ≤ 0xff)

def isWordInner (c : Char) : Bool :=
  isLatinLetter c ∨ c.toNat = 39 ∨ c.toNat = 0x2019 ∨ c.toNat = 45

/-! ### The six PATTERNS regexes -/

def urlRE : RE :=
  seqList [strRE "http", .opt (chrRE 's'), strRE "://", RE.plus (.cls isUrlChar)]

def emailRE : RE :=
  seqList [RE.plus (.cls isEmailLocalChar), chrRE '@',
    RE.plus (.cls isEmailDomainChar), chrRE '.',
    .cls isAsciiAlpha, .cls isAsciiAlpha, .star (.cls isAsciiAlpha)]

def ibanRE : RE :=
  seqList [.cls isAsciiUpper, .cls isAsciiUpper, .cls isAsciiDigit,
    .cls isAsciiDigit, .opt (.cls isJsSpace), repExact (.cls isUpperOrDigit) 4,
    repRange (.seq (.opt (.cls isJsSpace)) (repExact (.cls isUpperOrDigit) 4)) 2 7,
    .opt (.cls isJsSpace), repRange (.cls isUpperOrDigit) 1 4]

def ssnFrRE : RE :=
  seqList [.cls (fun c => c = '1' ∨ c = '2'), .opt (.cls isJsSpace),
    repExact (.cls isAsciiDigit) 2, .opt (.cls isJsSpace),
    repExact (.cls isAsciiDigit) 2, .opt (.cls isJsSpace),
    .alt (repExact (.cls isAsciiDigit) 2)
      (.seq (chrRE '2') (.cls (fun c => c = 'A' ∨ c = 'B'))),
    .opt (.cls isJsSpace), repExact (.cls isAsciiDigit) 3,
    .opt (.cls isJsSpace), repExact (.cls isAsciiDigit) 3,
    .opt (.cls isJsSpace), repExact (.cls isAsciiDigit) 2]

def phoneFrRE : RE :=
  seqList [.alt (.seq (.alt (chrRE '+') (strRE "00")) (strRE "33")) (chrRE '0'),
    .star (.cls isJsSpace), .cls (fun c => 49 ≤ c.toNat ∧ c.toNat ≤ 57),
    repExact (.seq (.star (.cls isPhoneSep)) (repExact (.cls isAsciiDigit) 2)) 4]

def phoneUkRE : RE :=
  seqList [.alt (strRE "+44") (chrRE '0'), .opt (.cls isPhoneSep),
    repExact (.cls isAsciiDigit) 4, .opt (.cls isPhoneSep),
    repExact (.cls isAsciiDigit) 6]

def PATTERNS : List (PatternType × RE) :=
  [(.url, urlRE), (.email, emailRE), (.iban, ibanRE), (.ssn_fr, ssnFrRE),
   (.phone, phoneFrRE), (.phone, phoneUkRE)]

/-! ### IBAN checksum -/

def charDigit (c : Char) : Option Nat :=
  if 48 ≤ c.toNat ∧ c.toNat ≤ 57 then some (c.toNat - 48) else none

def validateIbanChecksum (iban : String) : Bool :=
  let cleaned := (iban.toList.filter (fun c => ¬ isJsSpace c)).map Char.toUpper
  if cleaned.length < 5 then false
  else
    let rearranged := cleaned.drop 4 ++ cleaned.take 4
    let numStr := rearranged.flatMap (fun ch =>
      if 65 ≤ ch.toNat ∧ ch.toNat ≤ 90 then (Nat.repr (ch.toNat - 55)).toList
      else [ch])
    let remainder := numStr.foldl (fun r c =>
      match r, charDigit c with
      | some r0, some d => some ((r0 * 10 + d) % 97)
      | _, _ => none) (some 0)
    remainder = some 1

/-! ### tokenize -/

structure Span where
  start : Nat
  stop : Nat
  ptype : PatternType
deriving Repr, DecidableEq

def sliceList (cs : List Char) (s e : Nat) : List Char :=
  (cs.drop s).take (e - s)

def spanOverlaps (spans : List Span) (s e : Nat) : Bool :=
  spans.any (fun sp => s < sp.stop ∧ e > sp.start)

def spanStep (cs : List Char) (pt : PatternType) (acc : List Span)
    (m : Nat × Nat) : List Span :=
  if spanOverlaps acc m.1 m.2 then acc
  else if pt = PatternType.iban ∧
      validateIbanChecksum (String.mk (sliceList cs m.1 m.2)) = false then acc
  else acc ++ [{ start := m.1, stop := m.2, ptype := pt }]

def collectSpans (fuel : Nat) (cs : List Char) (pt : PatternType) (re : RE)
    (acc : List Span) : List Span :=
  (execAll fuel re cs).foldl (spanStep cs pt) acc

def insertSpan (x : Span) : List Span → List Span
  | [] => [x]
  | y :: ys => if y.start ≤ x.start then y :: insertSpan x ys else x :: y :: ys

def sortSpans : List Span → List Span
  | [] => []
  | x :: xs => insertSpan x (sortSpans xs)

def mkPatternToken (cs : List Char) (sp : Span) : Token :=
  { text := String.mk (sliceList cs sp.start sp.stop), start := sp.start,
    stop := sp.stop, kind := .pattern, patternType := some sp.ptype }

def basicRE : RE :=
  .alt (RE.plus (.cls isJsSpace))
    (.alt (.seq (.cls isLatinLetter)
        (.opt (.seq (.star (.cls isWordInner)) (.cls isLatinLetter))))
      (.alt (.seq (RE.plus (.cls isAsciiDigit))
          (.star (.seq (.cls (fun c => c = '.' ∨ c = ','))
            (RE.plus (.cls isAsciiDigit)))))
        (.cls (fun c => ¬ isJsSpace c))))

def basicKind (txt : List Char) : TokenKind :=
  match txt with
  | [] => .punctuation
  | c :: _ =>
    if isJsSpace c then .whitespace
    else if isLatinLetter c then .word
    else if isAsciiDigit c then .number
    else .punctuation

def splitBasic (fuel : Nat) (cs : List Char) (a b : Nat) : List Token :=
  let seg := sliceList cs a b
  (execAll fuel basicRE seg).map (fun m =>
    let txt := sliceList seg m.1 m.2
    { text := String.mk txt, start := a + m.1, stop := a + m.2,
      kind := basicKind txt, patternType := none })

def tokenStep (fuel : Nat) (cs : List Char) (acc : List Token × Nat)
    (sp : Span) : List Token × Nat :=
  let toks := if acc.2 < sp.start then acc.1 ++ splitBasic fuel cs acc.2 sp.start
    else acc.1
  (toks ++ [mkPatternToken cs sp], sp.stop)

def tokenize (fuel : Nat) (text : String) : List Token :=
  let cs := text.toList
  let spans := sortSpans
    (PATTERNS.foldl (fun acc p => collectSpans fuel cs p.1 p.2 acc) [])
  let r := spans.foldl (tokenStep fuel cs) ([], 0)
  if r.2 < cs.length then r.1 ++ splitBasic fuel cs r.2 cs.length else r.1


theorem splitBasic_patternType (fuel : Nat) (cs : List Char) (a b : Nat) :
    ∀ tok ∈ splitBasic fuel cs a b, tok.patternType = none := by
  intro tok htok
  obtain ⟨m, _, hm⟩ := List.mem_map.mp htok
  rw [← hm]

def SpanInv (cs : List Char) (sp : Span) : Prop :=
  sp.ptype = PatternType.iban →
    validateIbanChecksum (String.mk (sliceList cs sp.start sp.stop)) = true

theorem spanStep_inv (cs : List Char) (pt : PatternType) (acc : List Span)
    (m : Nat × Nat) (hacc : ∀ sp ∈ acc, SpanInv cs sp) :
    ∀ sp ∈ spanStep cs pt acc m, SpanInv cs sp := by
  intro sp hsp
  unfold spanStep at hsp
  by_cases ho : spanOverlaps acc m.1 m.2 = true
  · rw [if_pos ho] at hsp
    exact hacc sp hsp
  · rw [if_neg ho] at hsp
    by_cases hg : pt = PatternType.iban ∧
        validateIbanChecksum (String.mk (sliceList cs m.1 m.2)) = false
    · rw [if_pos hg] at hsp
      exact hacc sp hsp
    · rw [if_neg hg] at hsp
      rcases List.mem_append.mp hsp with h | h
      · exact hacc sp h
      · have hsp' : sp = { start := m.1, stop := m.2, ptype := pt } :=
          List.mem_singleton.mp h
        intro hib
        subst hsp'
        have hpt : pt = PatternType.iban := hib
        rcases Bool.eq_false_or_eq_true
            (validateIbanChecksum (String.mk (sliceList cs m.1 m.2))) with hv | hv
        · exact hv
        · exact absurd ⟨hpt, hv⟩ hg

theorem foldl_spanStep_inv (cs : List Char) (pt : PatternType) :
    ∀ (ms : List (Nat × Nat)) (acc : List Span),
      (∀ sp ∈ acc, SpanInv cs sp) →
      ∀ sp ∈ ms.foldl (spanStep cs pt) acc, SpanInv cs sp := by
  intro ms
  induction ms with
  | nil => intro acc hacc; exact hacc
  | cons m rest ih =>
    intro acc hacc
    exact ih (spanStep cs pt acc m) (spanStep_inv cs pt acc m hacc)

theorem patternsFold_inv (fuel : Nat) (cs : List Char) :
    ∀ (pats : List (PatternType × RE)) (acc : List Span),
      (∀ sp ∈ acc, SpanInv cs sp) →
      ∀ sp ∈ pats.foldl (fun acc p => collectSpans fuel cs p.1 p.2 acc) acc,
        SpanInv cs sp := by
  intro pats
  induction pats with
  | nil => intro acc hacc; exact hacc
  | cons p rest ih =>
    intro acc hacc
    exact ih _ (foldl_spanStep_inv cs p.1 _ acc hacc)

theorem insertSpan_mem (x : Span) :
    ∀ (l : List Span) (sp : Span), sp ∈ insertSpan x l → sp = x ∨ sp ∈ l := by
  intro l
  induction l with
  | nil =>
    intro sp hsp
    exact Or.inl (List.mem_singleton.mp hsp)
  | cons y ys ih =>
    intro sp hsp
    unfold insertSpan at hsp
    by_cases hc : y.start ≤ x.start
    · rw [if_pos hc] at hsp
      rcases List.mem_cons.mp hsp with h | h
      · exact Or.inr (h ▸ List.mem_cons_self _ _)
      · rcases ih sp h with h' | h'
        · exact Or.inl h'
        · exact Or.inr (List.mem_cons_of_mem _ h')
    · rw [if_neg hc] at hsp
      rcases List.mem_cons.mp hsp with h | h
      · exact Or.inl h
      · exact Or.inr h

theorem sortSpans_mem :
    ∀ (l : List Span) (sp : Span), sp ∈ sortSpans l → sp ∈ l := by
  intro l
  induction l with
  | nil => intro sp hsp; cases hsp
  | cons x xs ih =>
    intro sp hsp
    rcases insertSpan_mem x (sortSpans xs) sp hsp with h | h
    · exact h ▸ List.mem_cons_self _ _
    · exact List.mem_cons_of_mem _ (ih sp h)

theorem tokenStep_fold (fuel : Nat) (cs : List Char) :
    ∀ (spans : List Span) (init : List Token × Nat) (tok : Token),
      tok ∈ (spans.foldl (tokenStep fuel cs) init).1 →
      tok ∈ init.1 ∨ tok.patternType = none ∨
        ∃ sp ∈ spans, tok = mkPatternToken cs sp := by
  intro spans
  induction spans with
  | nil =>
    intro init tok htok
    exact Or.inl htok
  | cons sp rest ih =>
    intro init tok htok
    rcases ih (tokenStep fuel cs init sp) tok htok with h | h | ⟨sp', hsp', he⟩
    · unfold tokenStep at h
      rcases List.mem_append.mp h with h' | h'
      · by_cases hc : init.2 < sp.start
        · rw [if_pos hc] at h'
          rcases List.mem_append.mp h' with h'' | h''
          · exact Or.inl h''
          · exact Or.inr (Or.inl (splitBasic_patternType fuel cs _ _ tok h''))
        · rw [if_neg hc] at h'
          exact Or.inl h'
      · have : tok = mkPatternToken cs sp := List.mem_singleton.mp h'
        exact Or.inr (Or.inr ⟨sp, List.mem_cons_self _ _, this⟩)
    · exact Or.inr (Or.inl h)
    · exact Or.inr (Or.inr ⟨sp', List.mem_cons_of_mem _ hsp', he⟩)

theorem tokenize_iban_valid (fuel : Nat) (text : String) :
    ∀ tok ∈ tokenize fuel text,
      tok.patternType = some PatternType.iban →
      validateIbanChecksum tok.text = true := by
  intro tok htok hib
  unfold tokenize at htok
  have hspans : ∀ sp ∈ sortSpans
      (PATTERNS.foldl (fun acc p => collectSpans fuel text.toList p.1 p.2 acc) []),
      SpanInv text.toList sp := by
    intro sp hsp
    exact patternsFold_inv fuel text.toList PATTERNS []
      (fun sp h => absurd h (List.not_mem_nil sp)) sp (sortSpans_mem _ sp hsp)
  have hcase : tok.patternType = none ∨
      ∃ sp ∈ sortSpans (PATTERNS.foldl
        (fun acc p => collectSpans fuel text.toList p.1 p.2 acc) []),
        tok = mkPatternToken text.toList sp := by
    by_cases hc : (List.foldl (tokenStep fuel text.toList) ([], 0)
        (sortSpans (PATTERNS.foldl
          (fun acc p => collectSpans fuel text.toList p.1 p.2 acc) []))).2 <
        text.toList.length
    · rw [if_pos hc] at htok
      rcases List.mem_append.mp htok with h | h
      · rcases tokenStep_fold fuel text.toList _ _ tok h with h' | h' | h'
        · exact absurd h' (List.not_mem_nil tok)
        · exact Or.inl h'
        · exact Or.inr h'
      · exact Or.inl (splitBasic_patternType fuel text.toList _ _ tok h)
    · rw [if_neg hc] at htok
      rcases tokenStep_fold fuel text.toList _ _ tok htok with h' | h' | h'
      · exact absurd h' (List.not_mem_nil tok)
      · exact Or.inl h'
      · exact Or.inr h'
  rcases hcase with h | ⟨sp, hsp, he⟩
  · rw [h] at hib
    cases hib
  · have hpt : sp.ptype = PatternType.iban := by
      have : tok.patternType = some sp.ptype := by rw [he]; rfl
      rw [hib] at this
      exact (Option.some.inj this).symm
    have htext : tok.text =
        String.mk (sliceList text.toList sp.start sp.stop) := by rw [he]; rfl
    rw [htext]
    exact hspans sp hsp hpt


def validIbanText : String := "GB82 WEST 1234 5698 7654 32"

def invalidIbanText : String := "GB83 WEST 1234 5698 7654 32"

def ibanTokGB82 : Token :=
  { text := "GB82 WEST 1234 5698 7654 32", start := 0, stop := 27,
    kind := .pattern, patternType := some .iban }

def gb83Tokens : List Token :=
  [{ text := "GB", start := 0, stop := 2, kind := .word, patternType := none },
   { text := "83", start := 2, stop := 4, kind := .number, patternType := none },
   { text := " ", start := 4, stop := 5, kind := .whitespace, patternType := none },
   { text := "WEST", start := 5, stop := 9, kind := .word, patternType := none },
   { text := " ", start := 9, stop := 10, kind := .whitespace, patternType := none },
   { text := "1234", start := 10, stop := 14, kind := .number, patternType := none },
   { text := " ", start := 14, stop := 15, kind := .whitespace, patternType := none },
   { text := "5698", start := 15, stop := 19, kind := .number, patternType := none },
   { text := " ", start := 19, stop := 20, kind := .whitespace, patternType := none },
   { text := "7654", start := 20, stop := 24, kind := .number, patternType := none },
   { text := " ", start := 24, stop := 25, kind := .whitespace, patternType := none },
   { text := "32", start := 25, stop := 27, kind := .number, patternType := none }]

/-- C4: every token produced by `tokenize` whose `patternType` is `iban`
passes the ISO 13616 mod-97 checksum (`validateIbanChecksum`), for every
fuel and input text; the standard valid example "GB82 WEST 1234 5698 7654
32" is tokenized as a single `iban` pattern token; the structurally similar
"GB83 ..." with an invalid checksum is never tokenized as `iban` — it falls
through to ordinary word/number/whitespace tokenization with no pattern
token at all. -/
theorem tokenize_iban_checksum :
    (∀ (fuel : Nat) (text : String), ∀ tok ∈ tokenize fuel text,
      tok.patternType = some PatternType.iban →
      validateIbanChecksum tok.text = true) ∧
    tokenize 300 validIbanText = [ibanTokGB82] ∧
    tokenize 300 invalidIbanText = gb83Tokens ∧
    (∀ tok ∈ gb83Tokens,
      tok.patternType = none ∧ tok.kind ≠ TokenKind.pattern) :=
  ⟨tokenize_iban_valid, by decide, by decide, by decide⟩

theorem tokenize_iban_checksum_witness :
    validateIbanChecksum ibanTokGB82.text = true :=
  tokenize_iban_checksum.1 300 validIbanText ibanTokGB82 (by decide) (by decide)

end Whiteout
